import Mathlib

/-!
Verification of the blurry-camera alert engine (`flo_blur_mvp/blurry_mvp.py`).

The embedding models Python dictionaries as insertion-ordered association
lists (`List (String × α)`): updating an existing key replaces the value in
place, inserting a fresh key appends at the end, `pop` removes the entry —
exactly the observable behaviour of CPython dicts.  Timestamps (`datetime`)
and durations (`timedelta`) are modelled as integer seconds; the local
time-of-day conversion `astimezone().time()` is an abstract function
`localTime : Int → Nat` carried in the aggregator configuration, and
`datetime.time` values are time-of-day numbers (`Nat`).
-/

/-- Ordered association-list lookup, the model of Python `d.get(k)` /
`d[k]`. -/
def lookupA {α : Type} (k : String) : List (String × α) → Option α
  | [] => none
  | (k', v) :: rest => if k' = k then some v else lookupA k rest

/-- Ordered association-list write, the model of Python `d[k] = v`:
replace in place when the key exists, append otherwise. -/
def insertA {α : Type} (k : String) (v : α) : List (String × α) → List (String × α)
  | [] => [(k, v)]
  | (k', v') :: rest => if k' = k then (k, v) :: rest else (k', v') :: insertA k v rest

/-- Ordered association-list removal, the model of Python `d.pop(k, None)`. -/
def eraseA {α : Type} (k : String) : List (String × α) → List (String × α)
  | [] => []
  | (k', v') :: rest => if k' = k then rest else (k', v') :: eraseA k rest

/-- Python's `DEFAULT_SITE_ID` constant. -/
def DEFAULT_SITE_ID : String := "Default"

/-- `AlertCandidate` dataclass. -/
structure AlertCandidate where
  camera_id : String
  line_number : Option Int
  blur_since : Int
  ready_at : Int
  site_id : String
deriving DecidableEq, Repr

/-- `AlertAction` dataclass (`kind` is `"single"` or `"aggregate"`). -/
structure AlertAction where
  kind : String
  candidates : List AlertCandidate
  site_id : String
  washdown_hint : Bool := false
deriving DecidableEq, Repr

/-- `CameraAlertState` dataclass. -/
structure CameraAlertState where
  is_blurry : Bool := false
  blur_start : Option Int := none
  last_alert_until : Option Int := none
  alert_open : Bool := false
  pending_candidate : Bool := false
deriving DecidableEq, Repr

namespace SiteAlertAggregator

/-- The configuration part of `SiteAlertAggregator` (set in `__init__` and
never mutated).  `localTime` abstracts `datetime.astimezone().time()`. -/
structure Config where
  window : Int
  min_count : Int
  suppress : Int
  washdown_schedule : List (Nat × Nat)
  localTime : Int → Nat

/-- `SiteAlertAggregator.__init__`: clamps the window and suppress durations
to at least one second and the quorum to at least one camera;
`washdown_schedule or []` turns an absent schedule into the empty list. -/
def mkConfig (window_sec min_count suppress_sec : Int)
    (washdown_schedule : Option (List (Nat × Nat))) (localTime : Int → Nat) : Config :=
  { window := max 1 window_sec
    min_count := max 1 min_count
    suppress := max 1 suppress_sec
    washdown_schedule := washdown_schedule.getD []
    localTime := localTime }

/-- The mutable part of `SiteAlertAggregator`. -/
structure State where
  pending_by_camera : List (String × AlertCandidate)
  pending_by_site : List (String × List (String × AlertCandidate))
  site_cooldown : List (String × Int)
deriving DecidableEq, Repr

/-- The aggregator's initial state (`__init__`). -/
def State.init : State := ⟨[], [], []⟩

/-- `SiteAlertAggregator.enqueue`. -/
def enqueue (candidate : AlertCandidate) (s : State) : State :=
  let site_pool := (lookupA candidate.site_id s.pending_by_site).getD []
  { pending_by_camera := insertA candidate.camera_id candidate s.pending_by_camera
    pending_by_site :=
      insertA candidate.site_id (insertA candidate.camera_id candidate site_pool)
        s.pending_by_site
    site_cooldown := s.site_cooldown }

/-- `SiteAlertAggregator.cancel`. -/
def cancel (camera_id : String) (s : State) : State :=
  match lookupA camera_id s.pending_by_camera with
  | none => s
  | some candidate =>
    let cam := eraseA camera_id s.pending_by_camera
    match lookupA candidate.site_id s.pending_by_site with
    | none => { s with pending_by_camera := cam }
    | some site_pool =>
      let pool := eraseA camera_id site_pool
      { s with
        pending_by_camera := cam
        pending_by_site :=
          if pool.isEmpty then eraseA candidate.site_id s.pending_by_site
          else insertA candidate.site_id pool s.pending_by_site }

/-- `SiteAlertAggregator._within_washdown`. -/
def within_washdown (cfg : Config) (candidates : List AlertCandidate) : Bool :=
  if cfg.washdown_schedule.isEmpty then false
  else
    candidates.any fun cand =>
      cfg.washdown_schedule.any fun w =>
        let local_time := cfg.localTime cand.ready_at
        if w.1 ≤ w.2 then decide (w.1 ≤ local_time) && decide (local_time ≤ w.2)
        else decide (w.1 ≤ local_time) || decide (local_time ≤ w.2)

/-- Body of the first loop of `SiteAlertAggregator.process` for one
`(site_id, site_pool)` item of the snapshot: aggregate-quorum check,
dispatch, removal from both pools, cooldown update, and the
`if not site_pool: pop` pruning at the end of the loop body. -/
def processSite (cfg : Config) (now : Int) (acc : State × List AlertAction)
    (site_id : String) (site_pool : List (String × AlertCandidate)) :
    State × List AlertAction :=
  let s := acc.1
  let active := site_pool.filter fun e => decide (now - e.2.ready_at ≤ cfg.window)
  let cooldown_ok : Bool :=
    match lookupA site_id s.site_cooldown with
    | none => true
    | some cooldown => decide (cooldown ≤ now)
  if decide (cfg.min_count ≤ (active.length : Int)) && cooldown_ok then
    let pool := active.foldl (fun p e => eraseA e.1 p) site_pool
    ({ pending_by_camera := active.foldl (fun cp e => eraseA e.1 cp) s.pending_by_camera
       pending_by_site :=
         if pool.isEmpty then eraseA site_id s.pending_by_site
         else insertA site_id pool s.pending_by_site
       site_cooldown := insertA site_id (now + cfg.suppress) s.site_cooldown },
     acc.2 ++ [{ kind := "aggregate", candidates := active.map (·.2), site_id := site_id
                 washdown_hint := within_washdown cfg (active.map (·.2)) }])
  else
    ({ s with pending_by_site :=
        if site_pool.isEmpty then eraseA site_id s.pending_by_site else s.pending_by_site },
     acc.2)

/-- First loop of `SiteAlertAggregator.process`, over the snapshot
`list(self._pending_by_site.items())`. -/
def phase1 (cfg : Config) (now : Int) :
    List (String × List (String × AlertCandidate)) → State × List AlertAction →
    State × List AlertAction
  | [], acc => acc
  | e :: rest, acc => phase1 cfg now rest (processSite cfg now acc e.1 e.2)

/-- Body of the second loop of `SiteAlertAggregator.process` for one
`(camera_id, candidate)` item of the snapshot: single-dispatch on window
expiry, removal from both pools, site-pool pruning. -/
def processCam (cfg : Config) (now : Int) (acc : State × List AlertAction)
    (camera_id : String) (candidate : AlertCandidate) : State × List AlertAction :=
  let s := acc.1
  if decide (cfg.window ≤ now - candidate.ready_at) then
    ({ s with
       pending_by_camera := eraseA camera_id s.pending_by_camera
       pending_by_site :=
         match lookupA candidate.site_id s.pending_by_site with
         | none => s.pending_by_site
         | some site_pool =>
           let pool := eraseA camera_id site_pool
           if pool.isEmpty then eraseA candidate.site_id s.pending_by_site
           else insertA candidate.site_id pool s.pending_by_site },
     acc.2 ++ [{ kind := "single", candidates := [candidate], site_id := candidate.site_id
                 washdown_hint := false }])
  else acc

/-- Second loop of `SiteAlertAggregator.process`, over the snapshot
`list(self._pending_by_camera.items())` taken after the first loop. -/
def phase2 (cfg : Config) (now : Int) :
    List (String × AlertCandidate) → State × List AlertAction → State × List AlertAction
  | [], acc => acc
  | e :: rest, acc => phase2 cfg now rest (processCam cfg now acc e.1 e.2)

/-- `SiteAlertAggregator.process`: returns the dispatch list and the
post-state. -/
def process (cfg : Config) (now : Int) (s : State) : List AlertAction × State :=
  let acc1 := phase1 cfg now s.pending_by_site (s, [])
  let acc2 := phase2 cfg now acc1.1.pending_by_camera acc1
  (acc2.2, acc2.1)

/-- Consistency of the aggregator pools, maintained by construction in the
source (dict keys are unique; a candidate sits in the global pool and in
exactly its site's pool, keyed by its own camera id; site pools are pruned
when empty). -/
def wf (s : State) : Bool :=
  decide (s.pending_by_camera.map Prod.fst).Nodup &&
  decide (s.pending_by_site.map Prod.fst).Nodup &&
  s.pending_by_site.all (fun e =>
    !e.2.isEmpty && decide (e.2.map Prod.fst).Nodup &&
    e.2.all fun p =>
      decide (p.2.camera_id = p.1) && decide (p.2.site_id = e.1) &&
      decide (lookupA p.1 s.pending_by_camera = some p.2)) &&
  s.pending_by_camera.all fun p =>
    decide (p.2.camera_id = p.1) &&
    decide ((lookupA p.2.site_id s.pending_by_site).bind (lookupA p.1) = some p.2)

end SiteAlertAggregator

namespace AlertEngine

/-- The configuration part of `AlertEngine` (`__init__`): threshold clamped
to a non-negative duration, per-camera suppress clamped to at least one
second, the lookup tables, and the aggregator configuration built through
`SiteAlertAggregator.__init__`. -/
structure Config where
  threshold : Int
  suppress : Int
  line_lookup : List (String × Int)
  site_lookup : List (String × String)
  aggregator : SiteAlertAggregator.Config

/-- `AlertEngine.__init__`. -/
def mkConfig (line_lookup : List (String × Int)) (site_lookup : List (String × String))
    (threshold_sec suppress_sec aggregate_window_sec aggregate_min aggregate_suppress_sec : Int)
    (washdown_schedule : Option (List (Nat × Nat))) (localTime : Int → Nat) : Config :=
  { threshold := max 0 threshold_sec
    suppress := max 1 suppress_sec
    line_lookup := line_lookup
    site_lookup := site_lookup
    aggregator :=
      SiteAlertAggregator.mkConfig aggregate_window_sec aggregate_min aggregate_suppress_sec
        washdown_schedule localTime }

/-- The mutable state reachable from `AlertEngine`: the per-camera state
dict, the aggregator pools, and the two external effect sinks the claims
observe — the episode store (`BlurEpisodeStore.append` calls) and the
camera-control channel (`simulator.set_blurry` calls), both append-only. -/
structure State where
  state : List (String × CameraAlertState)
  aggregator : SiteAlertAggregator.State
  episodes : List (String × Int × Int)
  sim_calls : List (String × Bool)
deriving DecidableEq, Repr

/-- Fresh engine: empty camera dict, empty aggregator, empty sinks. -/
def State.init : State := ⟨[], SiteAlertAggregator.State.init, [], []⟩

/-- `AlertEngine.process` (one observation).  `_resolve` only prints, so it
has no model. -/
def process (cfg : Config) (now : Int) (camera_id : String) (is_blurry : Bool)
    (s : State) : State :=
  let st := (lookupA camera_id s.state).getD {}
  if is_blurry then
    let st1 := if st.is_blurry then st else { st with is_blurry := true, blur_start := some now }
    let allow_realert : Bool :=
      !(st1.alert_open &&
        match st1.last_alert_until with
        | some u => decide (now < u)
        | none => false)
    match st1.blur_start with
    | some b =>
      if allow_realert && !st1.pending_candidate && decide (cfg.threshold ≤ now - b) then
        let candidate : AlertCandidate :=
          { camera_id := camera_id
            line_number := lookupA camera_id cfg.line_lookup
            blur_since := b
            ready_at := now
            site_id := (lookupA camera_id cfg.site_lookup).getD DEFAULT_SITE_ID }
        { s with
          state := insertA camera_id { st1 with pending_candidate := true } s.state
          aggregator := SiteAlertAggregator.enqueue candidate s.aggregator }
      else { s with state := insertA camera_id st1 s.state }
    | none => { s with state := insertA camera_id st1 s.state }
  else
    let s1 :=
      if st.pending_candidate then
        { s with aggregator := SiteAlertAggregator.cancel camera_id s.aggregator }
      else s
    let st1 := if st.pending_candidate then { st with pending_candidate := false } else st
    let st2 :=
      if st1.is_blurry then
        { st1 with is_blurry := false, blur_start := none, alert_open := false,
                   last_alert_until := none }
      else st1
    { s1 with state := insertA camera_id st2 s1.state }

/-- The body of `_after_alert`'s loop for one camera id (`continue` when
the camera has no state; `clean` appends the camera-control call and the
episode and resets the state; any other decision opens the alert and arms
the per-camera suppression deadline). -/
def afterStep (cfg : Config) (now : Int) (decision : String) (acc : State)
    (camera_id : String) : State :=
  match lookupA camera_id acc.state with
  | none => acc
  | some st =>
    let st1 := { st with pending_candidate := false }
    if decision = "clean" then
      let acc1 := { acc with sim_calls := acc.sim_calls ++ [(camera_id, false)] }
      let acc2 :=
        match st1.blur_start with
        | some b => { acc1 with episodes := acc1.episodes ++ [(camera_id, b, now)] }
        | none => acc1
      { acc2 with
        state :=
          insertA camera_id
            { st1 with is_blurry := false, blur_start := none, alert_open := false,
                       last_alert_until := none } acc2.state }
    else
      { acc with
        state :=
          insertA camera_id
            { st1 with alert_open := true, last_alert_until := some (now + cfg.suppress) }
            acc.state }

/-- `AlertEngine._after_alert`, folding the human decision over the
action's cameras. -/
def after_alert (cfg : Config) (now : Int) (camera_ids : List String) (decision : String)
    (s : State) : State :=
  camera_ids.foldl (afterStep cfg now decision) s

/-- The dispatch loop of `AlertEngine.flush`: `_handle_aggregate` always
shows a dialog; `_handle_single` returns early (no dialog, no response)
when the camera has no state.  The human decisions are the external input,
consumed one per dialog; an exhausted list behaves like the GUI default
(`"ignore"`, the window-close outcome).  A single action's empty candidate
list would be an `IndexError` in the source and is unreachable (singles are
built with exactly one candidate); the model skips it. -/
def handleActions (cfg : Config) (now : Int) :
    List AlertAction → List String → State → State
  | [], _, s => s
  | a :: rest, decisions, s =>
    if a.kind = "aggregate" then
      handleActions cfg now rest decisions.tail
        (after_alert cfg now (a.candidates.map (·.camera_id)) (decisions.headD "ignore") s)
    else
      match a.candidates with
      | [] => handleActions cfg now rest decisions s
      | c :: _ =>
        match lookupA c.camera_id s.state with
        | none => handleActions cfg now rest decisions s
        | some _ =>
          handleActions cfg now rest decisions.tail
            (after_alert cfg now [c.camera_id] (decisions.headD "ignore") s)

/-- `AlertEngine.flush`. -/
def flush (cfg : Config) (decisions : List String) (now : Int) (s : State) : State :=
  let out := SiteAlertAggregator.process cfg.aggregator now s.aggregator
  handleActions cfg now out.1 decisions { s with aggregator := out.2 }

/-- The dispatch list a `flush` at `now` works through (the value of
`self.aggregator.process(now)` inside `AlertEngine.flush`). -/
def flushActions (cfg : Config) (now : Int) (s : State) : List AlertAction :=
  (SiteAlertAggregator.process cfg.aggregator now s.aggregator).1

/-- States reachable from a fresh engine by observations, flushes (with
arbitrary human decisions), and direct `_after_alert` applications. -/
inductive ReachAny (cfg : Config) : State → Prop
  | init : ReachAny cfg State.init
  | observe (s : State) (now : Int) (camera_id : String) (b : Bool) :
      ReachAny cfg s → ReachAny cfg (process cfg now camera_id b s)
  | flush (s : State) (decisions : List String) (now : Int) :
      ReachAny cfg s → ReachAny cfg (flush cfg decisions now s)
  | after (s : State) (now : Int) (camera_ids : List String) (decision : String) :
      ReachAny cfg s → ReachAny cfg (after_alert cfg now camera_ids decision s)

/-- An observation is re-alert-free when it does not report a camera whose
ignored alert's suppression deadline has already passed: blurry
observations of a camera with `alert_open` must come strictly before its
`last_alert_until`. -/
def noRealert (s : State) (now : Int) (camera_id : String) (b : Bool) : Bool :=
  !b ||
    match lookupA camera_id s.state with
    | none => true
    | some st =>
      !st.alert_open ||
        match st.last_alert_until with
        | none => false
        | some u => decide (now < u)

/-- States reachable when every observation is re-alert-free. -/
inductive ReachSafe (cfg : Config) : State → Prop
  | init : ReachSafe cfg State.init
  | observe (s : State) (now : Int) (camera_id : String) (b : Bool) :
      ReachSafe cfg s → noRealert s now camera_id b = true →
      ReachSafe cfg (process cfg now camera_id b s)
  | flush (s : State) (decisions : List String) (now : Int) :
      ReachSafe cfg s → ReachSafe cfg (flush cfg decisions now s)
  | after (s : State) (now : Int) (camera_ids : List String) (decision : String) :
      ReachSafe cfg s → ReachSafe cfg (after_alert cfg now camera_ids decision s)

/-- The spec's per-camera flag invariant, as a check over the whole camera
dict: no camera has `pending_candidate` and `alert_open` both true. -/
def invFlags (s : State) : Bool :=
  s.state.all fun e => !(e.2.pending_candidate && e.2.alert_open)

end AlertEngine

/-- One alternative of CPython's `_strptime` pattern for `%M`
(`[0-5]\d|\d`), anchored to consume the whole remaining input. -/
def parseMinute : List Char → Option Nat
  | [c] => if c.isDigit then some (c.toNat - 48) else none
  | [c1, c2] =>
    if ('0' ≤ c1 && c1 ≤ '5') && c2.isDigit then
      some (10 * (c1.toNat - 48) + (c2.toNat - 48))
    else none
  | _ => none

/-- CPython's `_strptime` match of `"%H:%M"` against a whole string:
`%H` is `2[0-3]|[0-1]\d|\d`, then a literal colon, then `%M`, with no
unconverted data allowed.  Returns the time of day in minutes. -/
def strptimeHM (cs : List Char) : Option Nat :=
  (match cs with
   | c1 :: c2 :: ':' :: rest =>
     if c1 = '2' && ('0' ≤ c2 && c2 ≤ '3') then
       (parseMinute rest).map fun m => 60 * (20 + (c2.toNat - 48)) + m
     else if ('0' ≤ c1 && c1 ≤ '1') && c2.isDigit then
       (parseMinute rest).map fun m =>
         60 * (10 * (c1.toNat - 48) + (c2.toNat - 48)) + m
     else none
   | _ => none) <|>
  (match cs with
   | c1 :: ':' :: rest =>
     if c1.isDigit then (parseMinute rest).map fun m => 60 * (c1.toNat - 48) + m
     else none
   | _ => none)

/-- Python `str.split(sep)` for a one-character separator, over the
character list of the string (`"".split(",") == [""]`). -/
def splitOnChar (sep : Char) : List Char → List (List Char)
  | [] => [[]]
  | c :: rest =>
    match splitOnChar sep rest with
    | [] => [[c]]
    | g :: gs => if c = sep then [] :: g :: gs else (c :: g) :: gs

/-- Python `str.strip()` default whitespace characters. -/
def isPySpace (c : Char) : Bool :=
  c = ' ' || c = '\t' || c = '\n' || c = '\r' || c = '\x0b' || c = '\x0c'

/-- Python `str.strip()`. -/
def strip (cs : List Char) : List Char :=
  ((cs.dropWhile isPySpace).reverse.dropWhile isPySpace).reverse

/-- The body of `parse_washdown_schedule`'s `try` block for one chunk:
`chunk.split("-")` must give exactly two parts and both must parse as
`%H:%M`; any failure is the caught `ValueError` (`none`). -/
def parseChunk (chunk : List Char) : Option (Nat × Nat) :=
  match splitOnChar '-' chunk with
  | [start_str, end_str] => do
    let start ← strptimeHM (strip start_str)
    let e ← strptimeHM (strip end_str)
    some (start, e)
  | _ => none

/-- `parse_washdown_schedule`: `if not spec` catches both `None` and the
empty string; each comma chunk is stripped, blank chunks are skipped,
parse failures print a warning and are dropped. -/
def parse_washdown_schedule (spec : Option String) : List (Nat × Nat) :=
  match spec with
  | none => []
  | some s =>
    if s.data = [] then []
    else
      (splitOnChar ',' s.data).foldl
        (fun windows chunk =>
          let chunk := strip chunk
          if chunk = [] then windows
          else
            match parseChunk chunk with
            | some w => windows ++ [w]
            | none => windows)
        []

namespace SiteAlertAggregator

/-- The spec's washdown condition, in its own words: some candidate's
`ready_at`, converted to local time of day, lies in a configured range —
inclusive on both ends when the range does not wrap (`start ≤ end`), and
matching `t ≥ start` or `t ≤ end` when it wraps (`start > end`). -/
def inWashdownSpec (cfg : Config) (candidates : List AlertCandidate) : Prop :=
  ∃ c ∈ candidates, ∃ w ∈ cfg.washdown_schedule,
    if w.1 ≤ w.2 then w.1 ≤ cfg.localTime c.ready_at ∧ cfg.localTime c.ready_at ≤ w.2
    else w.1 ≤ cfg.localTime c.ready_at ∨ cfg.localTime c.ready_at ≤ w.2

end SiteAlertAggregator

namespace SiteAlertAggregator

/-- The candidates of a pool still inside the aggregation window at `now`
(the `active` list of the first loop of `process`). -/
def activeFilter (cfg : Config) (now : Int) (pool : List (String × AlertCandidate)) :
    List (String × AlertCandidate) :=
  pool.filter fun p => decide (now - p.2.ready_at ≤ cfg.window)

/-- The cooldown gate of the first loop of `process`: no cooldown recorded
for the site, or `now >= cooldown`. -/
def cooldownOk (now : Int) (cd : List (String × Int)) (site_id : String) : Bool :=
  match lookupA site_id cd with
  | none => true
  | some cooldown => decide (cooldown ≤ now)

/-- The aggregate-dispatch condition of the first loop of `process` for one
site, relative to a cooldown table `cd`. -/
def fireE (cfg : Config) (now : Int) (cd : List (String × Int)) (site_id : String)
    (pool : List (String × AlertCandidate)) : Bool :=
  decide (cfg.min_count ≤ ((activeFilter cfg now pool).length : Int)) && cooldownOk now cd site_id

/-- The aggregate `AlertAction` the first loop of `process` builds for a
site pool. -/
def aggAction (cfg : Config) (now : Int) (site_id : String)
    (pool : List (String × AlertCandidate)) : AlertAction :=
  { kind := "aggregate", candidates := (activeFilter cfg now pool).map (·.2)
    site_id := site_id
    washdown_hint := within_washdown cfg ((activeFilter cfg now pool).map (·.2)) }

/-- The single `AlertAction` the second loop of `process` builds for an
aged-out candidate. -/
def singleAction (c : AlertCandidate) : AlertAction :=
  { kind := "single", candidates := [c], site_id := c.site_id, washdown_hint := false }

/-- The camera-pool transformer applied by the first loop of `process`:
each firing site erases its active candidates from the global pool. -/
def camFold (cfg : Config) (now : Int) (cd : List (String × Int))
    (l : List (String × List (String × AlertCandidate)))
    (cp : List (String × AlertCandidate)) : List (String × AlertCandidate) :=
  l.foldl
    (fun cp e =>
      if fireE cfg now cd e.1 e.2 then
        (activeFilter cfg now e.2).foldl (fun c p => eraseA p.1 c) cp
      else cp)
    cp

/-- The aggregator operations an orchestrator can interleave between two
flushes: candidate enqueue, candidate cancel, and `process` at some time. -/
inductive AggOp where
  | enq : AlertCandidate → AggOp
  | cel : String → AggOp
  | fl : Int → AggOp

/-- Run a sequence of aggregator operations, collecting every dispatched
action. -/
def runOps (cfg : Config) : List AggOp → State → State × List AlertAction
  | [], s => (s, [])
  | op :: rest, s =>
    match op with
    | .enq c => runOps cfg rest (enqueue c s)
    | .cel camera_id => runOps cfg rest (cancel camera_id s)
    | .fl t =>
      let out := process cfg t s
      let r := runOps cfg rest out.2
      (r.1, out.1 ++ r.2)

/-- Every `process` in the sequence happens strictly before time `d`. -/
def opsBefore (d : Int) (ops : List AggOp) : Bool :=
  ops.all fun op =>
    match op with
    | .fl t => decide (t < d)
    | _ => true

/-- The aggregator state after the first loop of `process`. -/
def phase1State (cfg : Config) (now : Int) (s : State) : State :=
  (phase1 cfg now s.pending_by_site (s, [])).1

/-- The dispatches of the first loop of `process`. -/
def phase1Acts (cfg : Config) (now : Int) (s : State) : List AlertAction :=
  (phase1 cfg now s.pending_by_site (s, [])).2

end SiteAlertAggregator

namespace AlertEngine

/-- The reset camera state written on a `clean` response and on a clear
observation. -/
def clearState : CameraAlertState :=
  { is_blurry := false, blur_start := none, last_alert_until := none, alert_open := false
    pending_candidate := false }

end AlertEngine

/-- A trivial local-time conversion used by concrete test fixtures. -/
def tzZero : Int → Nat := fun _ => 0

/-- Concrete fixtures mirroring `test_site_aggregator.py`. -/
def candW1 : AlertCandidate :=
  { camera_id := "CAM-01", line_number := some 1, blur_since := -30, ready_at := 0
    site_id := "SiteA" }

def candW2 : AlertCandidate :=
  { camera_id := "CAM-02", line_number := some 2, blur_since := -30, ready_at := 0
    site_id := "SiteA" }

def cfgW : SiteAlertAggregator.Config := SiteAlertAggregator.mkConfig 30 2 90 none tzZero

def sW : SiteAlertAggregator.State :=
  SiteAlertAggregator.enqueue candW2 (SiteAlertAggregator.enqueue candW1
    SiteAlertAggregator.State.init)

/-- Fixture for a cooled-down site holding one aged-out candidate. -/
def candW9 : AlertCandidate :=
  { camera_id := "CAM-09", line_number := some 9, blur_since := -30, ready_at := 0
    site_id := "SiteA" }

def cfgW10 : SiteAlertAggregator.Config := SiteAlertAggregator.mkConfig 10 3 60 none tzZero

def sW10 : SiteAlertAggregator.State :=
  { pending_by_camera := [("CAM-09", candW9)]
    pending_by_site := [("SiteA", [("CAM-09", candW9)])]
    site_cooldown := [("SiteA", 100)] }

/-- Fixture: one candidate alone in its site with quorum out of reach. -/
def cfgW5 : SiteAlertAggregator.Config := SiteAlertAggregator.mkConfig 10 3 60 none tzZero

def sW5 : SiteAlertAggregator.State :=
  { pending_by_camera := [("CAM-09", candW9)]
    pending_by_site := [("SiteA", [("CAM-09", candW9)])]
    site_cooldown := [] }

/-- Fixture: `min_count = 1`, one fresh candidate. -/
def cfgW9 : SiteAlertAggregator.Config := SiteAlertAggregator.mkConfig 30 1 60 none tzZero

def sW9 : SiteAlertAggregator.State :=
  { pending_by_camera := [("CAM-09", candW9)]
    pending_by_site := [("SiteA", [("CAM-09", candW9)])]
    site_cooldown := [] }

/-- Fixture: an always-matching washdown schedule. -/
def cfgW6 : SiteAlertAggregator.Config :=
  SiteAlertAggregator.mkConfig 30 2 90 (some [(0, 1439)]) tzZero

/-- Engine fixture mirroring `test_alert_engine.build_engine`. -/
def cfgE : AlertEngine.Config :=
  AlertEngine.mkConfig [("CAM-01", 1)] [("CAM-01", "SiteA")] 1 30 5 1 10 none tzZero

def stE : CameraAlertState :=
  { is_blurry := true, blur_start := some 0, last_alert_until := none, alert_open := false
    pending_candidate := true }

def sE : AlertEngine.State :=
  { state := [("CAM-01", stE)], aggregator := SiteAlertAggregator.State.init
    episodes := [], sim_calls := [] }

/-- The C1/C2 engine configurations: one camera, threshold 0. -/
def cfgC1 : AlertEngine.Config :=
  AlertEngine.mkConfig [("c", 1)] [("c", "SiteA")] 0 1 1 2 1 none tzZero

/-- Blurry at 0; the single dispatched at 1 is ignored (alert opened,
suppression until 2); the camera is still blurry at 2, when the
suppression deadline has passed, so a fresh candidate is enqueued while
`alert_open` is still `true`. -/
def sBadC1 : AlertEngine.State :=
  AlertEngine.process cfgC1 2 "c" true
    (AlertEngine.flush cfgC1 ["ignore"] 1
      (AlertEngine.process cfgC1 0 "c" true AlertEngine.State.init))

/-- The C2 engine configuration: one camera, threshold 0, aggregation
window configured as 0 seconds, quorum 2. -/
def cfgC2 : AlertEngine.Config :=
  AlertEngine.mkConfig [("CAM-01", 1)] [("CAM-01", "SiteA")] 0 1 0 2 300 none tzZero

/-- The camera observed blurry at t0 = 0. -/
def sC2 : AlertEngine.State :=
  AlertEngine.process cfgC2 0 "CAM-01" true AlertEngine.State.init

section AssocLemmas

variable {α : Type}

@[simp] theorem lookupA_nil (k : String) : lookupA (α := α) k [] = none := rfl

@[simp] theorem lookupA_cons (k k' : String) (v : α) (l : List (String × α)) :
    lookupA k ((k', v) :: l) = if k' = k then some v else lookupA k l := rfl

theorem lookupA_cons_pair (k : String) (e : String × α) (l : List (String × α)) :
    lookupA k (e :: l) = if e.1 = k then some e.2 else lookupA k l := by
  cases e
  rfl

@[simp] theorem lookupA_insertA_self (k : String) (v : α) (l : List (String × α)) :
    lookupA k (insertA k v l) = some v := by
  induction l with
  | nil => simp [insertA, lookupA]
  | cons p rest ih =>
    by_cases h : p.1 = k <;> simp [insertA, lookupA, h, ih]

theorem lookupA_insertA_ne (k k' : String) (v : α) (l : List (String × α)) (h : k' ≠ k) :
    lookupA k (insertA k' v l) = lookupA k l := by
  have hkk : ¬ k = k' := fun hh => h hh.symm
  induction l with
  | nil => simp [insertA, lookupA, h]
  | cons p rest ih =>
    by_cases hp : p.1 = k'
    · simp [insertA, lookupA, hp, h]
    · by_cases hk : p.1 = k <;> simp [insertA, lookupA, hp, hk, hkk, ih]

theorem lookupA_eraseA_ne (k k' : String) (l : List (String × α)) (h : k' ≠ k) :
    lookupA k (eraseA k' l) = lookupA k l := by
  have hkk : ¬ k = k' := fun hh => h hh.symm
  induction l with
  | nil => simp [eraseA]
  | cons p rest ih =>
    by_cases hp : p.1 = k'
    · have hkp : ¬ p.1 = k := by rw [hp]; exact h
      simp [eraseA, lookupA, hp, hkp, h]
    · by_cases hk : p.1 = k <;> simp [eraseA, lookupA, hp, hk, hkk, ih]

theorem lookupA_eq_none_iff (k : String) (l : List (String × α)) :
    lookupA k l = none ↔ ∀ p ∈ l, p.1 ≠ k := by
  induction l with
  | nil => simp
  | cons p rest ih =>
    by_cases hp : p.1 = k <;> simp [lookupA, hp, ih]

theorem lookupA_eraseA_self (k : String) (l : List (String × α))
    (h : (l.map Prod.fst).Nodup) : lookupA k (eraseA k l) = none := by
  induction l with
  | nil => simp [eraseA]
  | cons p rest ih =>
    simp only [List.map_cons, List.nodup_cons] at h
    by_cases hp : p.1 = k
    · rw [eraseA]
      simp only [hp, if_pos rfl]
      rw [lookupA_eq_none_iff]
      intro q hq hqk
      apply h.1
      have hm : q.1 ∈ rest.map Prod.fst := List.mem_map_of_mem Prod.fst hq
      rwa [hqk, ← hp] at hm
    · rw [eraseA]
      simp only [if_neg hp, lookupA_cons, if_neg hp]
      exact ih h.2

theorem lookupA_mem {k : String} {v : α} {l : List (String × α)}
    (h : lookupA k l = some v) : (k, v) ∈ l := by
  induction l with
  | nil => simp [lookupA] at h
  | cons p rest ih =>
    obtain ⟨a, b⟩ := p
    by_cases hp : a = k
    · rw [lookupA_cons] at h
      simp only [hp, if_pos rfl] at h
      injection h with hv
      subst hp
      subst hv
      exact List.mem_cons_self _ _
    · rw [lookupA_cons] at h
      simp only [if_neg hp] at h
      exact List.mem_cons_of_mem _ (ih h)

theorem mem_lookupA {k : String} {v : α} {l : List (String × α)}
    (hn : (l.map Prod.fst).Nodup) (h : (k, v) ∈ l) : lookupA k l = some v := by
  induction l with
  | nil => simp at h
  | cons p rest ih =>
    simp only [List.map_cons, List.nodup_cons] at hn
    rcases List.mem_cons.mp h with h | h
    · subst h; simp [lookupA]
    · have hp : p.1 ≠ k := by
        intro hk
        exact hn.1 (hk ▸ (List.mem_map_of_mem Prod.fst h))
      simp only [lookupA, if_neg hp]
      exact ih hn.2 h

theorem eraseA_sublist (k : String) (l : List (String × α)) : (eraseA k l).Sublist l := by
  induction l with
  | nil => simp [eraseA]
  | cons p rest ih =>
    by_cases hp : p.1 = k
    · simp only [eraseA, if_pos hp]
      exact List.sublist_cons_self p rest
    · simp only [eraseA, if_neg hp]
      exact ih.cons₂ p

theorem mem_eraseA {p : String × α} {k : String} {l : List (String × α)}
    (h : p ∈ eraseA k l) : p ∈ l := (eraseA_sublist k l).mem h

theorem keys_eraseA_sublist (k : String) (l : List (String × α)) :
    ((eraseA k l).map Prod.fst).Sublist (l.map Prod.fst) :=
  (eraseA_sublist k l).map Prod.fst

theorem nodupKeys_eraseA (k : String) {l : List (String × α)}
    (h : (l.map Prod.fst).Nodup) : ((eraseA k l).map Prod.fst).Nodup :=
  (keys_eraseA_sublist k l).nodup h

theorem insertA_of_lookupA_none {k : String} (v : α) {l : List (String × α)}
    (h : lookupA k l = none) : insertA k v l = l ++ [(k, v)] := by
  induction l with
  | nil => simp [insertA]
  | cons p rest ih =>
    by_cases hp : p.1 = k
    · simp [lookupA, hp] at h
    · simp only [lookupA, if_neg hp] at h
      simp [insertA, hp, ih h]

theorem keys_insertA (k : String) (v : α) (l : List (String × α)) :
    (insertA k v l).map Prod.fst = l.map Prod.fst ∨
      (insertA k v l).map Prod.fst = l.map Prod.fst ++ [k] := by
  induction l with
  | nil => right; simp [insertA]
  | cons p rest ih =>
    by_cases hp : p.1 = k
    · left; simp [insertA, hp]
    · rcases ih with h | h
      · left; simp [insertA, hp, h]
      · right; simp [insertA, hp, h]

theorem nodupKeys_insertA (k : String) (v : α) {l : List (String × α)}
    (h : (l.map Prod.fst).Nodup) : ((insertA k v l).map Prod.fst).Nodup := by
  induction l with
  | nil => simp [insertA]
  | cons p rest ih =>
    simp only [List.map_cons, List.nodup_cons] at h
    by_cases hp : p.1 = k
    · subst hp
      simpa [insertA, List.nodup_cons] using h
    · simp only [insertA, if_neg hp, List.map_cons, List.nodup_cons]
      refine ⟨?_, ih h.2⟩
      intro hmem
      rcases keys_insertA k v rest with he | he
      · exact h.1 (he ▸ hmem)
      · rw [he, List.mem_append] at hmem
        rcases hmem with hmem | hmem
        · exact h.1 hmem
        · simp at hmem
          exact hp hmem

theorem insertA_self {k : String} {v : α} {l : List (String × α)}
    (h : lookupA k l = some v) : insertA k v l = l := by
  induction l with
  | nil => simp [lookupA] at h
  | cons p rest ih =>
    by_cases hp : p.1 = k
    · simp only [lookupA, if_pos hp] at h
      cases p
      simp_all [insertA]
    · simp only [lookupA, if_neg hp] at h
      simp [insertA, hp, ih h]

theorem insertA_insertA (k : String) (v w : α) (l : List (String × α)) :
    insertA k v (insertA k w l) = insertA k v l := by
  induction l with
  | nil => simp [insertA]
  | cons p rest ih =>
    by_cases hp : p.1 = k <;> simp [insertA, hp, ih]

theorem eraseA_append {k : String} (v : α) {l : List (String × α)}
    (h : lookupA k l = none) : eraseA k (l ++ [(k, v)]) = l := by
  induction l with
  | nil => simp [eraseA]
  | cons p rest ih =>
    by_cases hp : p.1 = k
    · simp [lookupA, hp] at h
    · simp only [lookupA, if_neg hp] at h
      simp [eraseA, hp, ih h]

theorem eraseA_eq_filter {k : String} {l : List (String × α)}
    (h : (l.map Prod.fst).Nodup) :
    eraseA k l = l.filter fun p => !decide (p.1 = k) := by
  induction l with
  | nil => simp [eraseA]
  | cons p rest ih =>
    simp only [List.map_cons, List.nodup_cons] at h
    by_cases hp : p.1 = k
    · subst hp
      have hself : rest.filter (fun q => !decide (q.1 = p.1)) = rest := by
        apply List.filter_eq_self.mpr
        intro q hq
        simp only [Bool.not_eq_true', decide_eq_false_iff_not]
        intro hk
        apply h.1
        have hm : q.1 ∈ rest.map Prod.fst := List.mem_map_of_mem Prod.fst hq
        rwa [hk] at hm
      simp [eraseA, hself]
    · simp [eraseA, hp, ih h.2]

end AssocLemmas

namespace SiteAlertAggregator

theorem processSite_fire {cfg : Config} {now : Int} {s : State} {acts : List AlertAction}
    {site_id : String} {pool : List (String × AlertCandidate)}
    (h : fireE cfg now s.site_cooldown site_id pool = true) :
    processSite cfg now (s, acts) site_id pool =
      ({ pending_by_camera :=
           (activeFilter cfg now pool).foldl (fun cp e => eraseA e.1 cp) s.pending_by_camera
         pending_by_site :=
           if ((activeFilter cfg now pool).foldl (fun p e => eraseA e.1 p) pool).isEmpty then
             eraseA site_id s.pending_by_site
           else
             insertA site_id ((activeFilter cfg now pool).foldl (fun p e => eraseA e.1 p) pool)
               s.pending_by_site
         site_cooldown := insertA site_id (now + cfg.suppress) s.site_cooldown },
       acts ++ [aggAction cfg now site_id pool]) := by
  rw [fireE, cooldownOk] at h
  simp only [processSite, activeFilter, aggAction] at h ⊢
  rw [h]
  simp

theorem processSite_nofire {cfg : Config} {now : Int} {s : State} {acts : List AlertAction}
    {site_id : String} {pool : List (String × AlertCandidate)}
    (h : fireE cfg now s.site_cooldown site_id pool = false) :
    processSite cfg now (s, acts) site_id pool =
      ({ s with
         pending_by_site :=
           if pool.isEmpty then eraseA site_id s.pending_by_site else s.pending_by_site },
       acts) := by
  rw [fireE, cooldownOk] at h
  simp only [processSite, activeFilter] at h ⊢
  rw [h]
  simp

theorem fireE_congr {cfg : Config} {now : Int} {cd cd' : List (String × Int)}
    {site_id : String} {pool : List (String × AlertCandidate)}
    (h : lookupA site_id cd = lookupA site_id cd') :
    fireE cfg now cd site_id pool = fireE cfg now cd' site_id pool := by
  rw [fireE, fireE, cooldownOk, cooldownOk, h]

end SiteAlertAggregator

namespace SiteAlertAggregator

theorem phase1_acts_char (cfg : Config) (now : Int) :
    ∀ (l : List (String × List (String × AlertCandidate))) (s : State)
      (acts : List AlertAction) (cd : List (String × Int)),
      (l.map Prod.fst).Nodup →
      (∀ e ∈ l, lookupA e.1 s.site_cooldown = lookupA e.1 cd) →
      (phase1 cfg now l (s, acts)).2 =
        acts ++ l.filterMap fun e =>
          if fireE cfg now cd e.1 e.2 then some (aggAction cfg now e.1 e.2) else none := by
  intro l
  induction l with
  | nil => intro s acts cd _ _; simp [phase1]
  | cons e rest ih =>
    intro s acts cd hnd hcd
    simp only [List.map_cons, List.nodup_cons] at hnd
    have hhead : fireE cfg now s.site_cooldown e.1 e.2 = fireE cfg now cd e.1 e.2 :=
      fireE_congr (hcd e (List.mem_cons_self e rest))
    rw [phase1]
    by_cases hf : fireE cfg now cd e.1 e.2 = true
    · rw [processSite_fire (hhead.trans hf)]
      rw [ih _ _ cd hnd.2 ?_]
      · simp [hf]
      · intro e' he'
        have hne : e'.1 ≠ e.1 := by
          intro hk
          exact hnd.1 (hk ▸ (List.mem_map_of_mem Prod.fst he'))
        simp only []
        rw [lookupA_insertA_ne _ _ _ _ hne.symm]
        exact hcd e' (List.mem_cons_of_mem e he')
    · have hf' : fireE cfg now cd e.1 e.2 = false := by
        cases hb : fireE cfg now cd e.1 e.2
        · rfl
        · exact absurd hb hf
      rw [processSite_nofire (hhead.trans hf')]
      rw [ih _ _ cd hnd.2 ?_]
      · simp [hf']
      · intro e' he'
        exact hcd e' (List.mem_cons_of_mem e he')

theorem phase1_cooldown_char (cfg : Config) (now : Int) :
    ∀ (l : List (String × List (String × AlertCandidate))) (s : State)
      (acts : List AlertAction) (cd : List (String × Int)) (k : String),
      (l.map Prod.fst).Nodup →
      (∀ e ∈ l, lookupA e.1 s.site_cooldown = lookupA e.1 cd) →
      lookupA k (phase1 cfg now l (s, acts)).1.site_cooldown =
        match lookupA k l with
        | some pool =>
          if fireE cfg now cd k pool then some (now + cfg.suppress)
          else lookupA k s.site_cooldown
        | none => lookupA k s.site_cooldown := by
  intro l
  induction l with
  | nil => intro s acts cd k _ _; simp [phase1, lookupA]
  | cons e rest ih =>
    intro s acts cd k hnd hcd
    simp only [List.map_cons, List.nodup_cons] at hnd
    have hhead : fireE cfg now s.site_cooldown e.1 e.2 = fireE cfg now cd e.1 e.2 :=
      fireE_congr (hcd e (List.mem_cons_self e rest))
    have hrest : ∀ (s' : State), (∀ e' ∈ rest, lookupA e'.1 s'.site_cooldown = lookupA e'.1 cd) →
        ∀ acts', lookupA k (phase1 cfg now rest (s', acts')).1.site_cooldown =
          match lookupA k rest with
          | some pool =>
            if fireE cfg now cd k pool then some (now + cfg.suppress)
            else lookupA k s'.site_cooldown
          | none => lookupA k s'.site_cooldown := by
      intro s' h acts'
      exact ih s' acts' cd k hnd.2 h
    rw [phase1]
    by_cases hek : e.1 = k
    · subst hek
      have hkrest : lookupA e.1 rest = none := by
        rw [lookupA_eq_none_iff]
        intro p hp hpk
        exact hnd.1 (hpk ▸ (List.mem_map_of_mem Prod.fst hp))
      by_cases hf : fireE cfg now cd e.1 e.2 = true
      · rw [processSite_fire (hhead.trans hf)]
        rw [hrest _ ?_ _]
        · rw [lookupA_cons_pair]
          simp [hkrest, hf]
        · intro e' he'
          have hne : e'.1 ≠ e.1 := by
            intro hk
            exact hnd.1 (hk ▸ (List.mem_map_of_mem Prod.fst he'))
          simp only []
          rw [lookupA_insertA_ne _ _ _ _ hne.symm]
          exact hcd e' (List.mem_cons_of_mem e he')
      · have hf' : fireE cfg now cd e.1 e.2 = false := Bool.eq_false_iff.mpr hf
        rw [processSite_nofire (hhead.trans hf')]
        rw [hrest _ ?_ _]
        · rw [lookupA_cons_pair]
          simp [hkrest, hf']
        · intro e' he'
          exact hcd e' (List.mem_cons_of_mem e he')
    · have hlk : lookupA k (e :: rest) = lookupA k rest := by
        rw [lookupA_cons, if_neg hek]
      by_cases hf : fireE cfg now cd e.1 e.2 = true
      · rw [processSite_fire (hhead.trans hf)]
        rw [hrest _ ?_ _]
        · simp only []
          rw [hlk, lookupA_insertA_ne _ _ _ _ hek]
        · intro e' he'
          have hne : e'.1 ≠ e.1 := by
            intro hk
            exact hnd.1 (hk ▸ (List.mem_map_of_mem Prod.fst he'))
          simp only []
          rw [lookupA_insertA_ne _ _ _ _ hne.symm]
          exact hcd e' (List.mem_cons_of_mem e he')
      · have hf' : fireE cfg now cd e.1 e.2 = false := Bool.eq_false_iff.mpr hf
        rw [processSite_nofire (hhead.trans hf')]
        rw [hrest _ ?_ _]
        · simp only []
          rw [hlk]
        · intro e' he'
          exact hcd e' (List.mem_cons_of_mem e he')

end SiteAlertAggregator

namespace SiteAlertAggregator

theorem phase1_cam_char (cfg : Config) (now : Int) :
    ∀ (l : List (String × List (String × AlertCandidate))) (s : State)
      (acts : List AlertAction) (cd : List (String × Int)),
      (l.map Prod.fst).Nodup →
      (∀ e ∈ l, lookupA e.1 s.site_cooldown = lookupA e.1 cd) →
      (phase1 cfg now l (s, acts)).1.pending_by_camera =
        l.foldl
          (fun cp e =>
            if fireE cfg now cd e.1 e.2 then
              (activeFilter cfg now e.2).foldl (fun c p => eraseA p.1 c) cp
            else cp)
          s.pending_by_camera := by
  intro l
  induction l with
  | nil => intro s acts cd _ _; simp [phase1]
  | cons e rest ih =>
    intro s acts cd hnd hcd
    simp only [List.map_cons, List.nodup_cons] at hnd
    have hhead : fireE cfg now s.site_cooldown e.1 e.2 = fireE cfg now cd e.1 e.2 :=
      fireE_congr (hcd e (List.mem_cons_self e rest))
    rw [phase1, List.foldl_cons]
    by_cases hf : fireE cfg now cd e.1 e.2 = true
    · rw [processSite_fire (hhead.trans hf)]
      rw [ih _ _ cd hnd.2 ?_]
      · simp [hf]
      · intro e' he'
        have hne : e'.1 ≠ e.1 := by
          intro hk
          exact hnd.1 (hk ▸ (List.mem_map_of_mem Prod.fst he'))
        simp only []
        rw [lookupA_insertA_ne _ _ _ _ hne.symm]
        exact hcd e' (List.mem_cons_of_mem e he')
    · have hf' : fireE cfg now cd e.1 e.2 = false := Bool.eq_false_iff.mpr hf
      rw [processSite_nofire (hhead.trans hf')]
      rw [ih _ _ cd hnd.2 ?_]
      · simp [hf']
      · intro e' he'
        exact hcd e' (List.mem_cons_of_mem e he')

theorem foldl_eraseA_sublist {α : Type} (es : List (String × AlertCandidate))
    (l : List (String × α)) :
    (es.foldl (fun c p => eraseA p.1 c) l).Sublist l := by
  induction es generalizing l with
  | nil => simp
  | cons p rest ih =>
    rw [List.foldl_cons]
    exact (ih (eraseA p.1 l)).trans (eraseA_sublist p.1 l)

theorem lookupA_none_of_sublist {α : Type} {k : String} {l l' : List (String × α)}
    (hs : l'.Sublist l) (h : lookupA k l = none) : lookupA k l' = none := by
  rw [lookupA_eq_none_iff] at h ⊢
  exact fun p hp => h p (hs.mem hp)

theorem lookupA_foldl_eraseA_none {α : Type} {k : String} {es : List (String × AlertCandidate)}
    {l : List (String × α)} (hn : (l.map Prod.fst).Nodup)
    (h : ∃ p ∈ es, p.1 = k) :
    lookupA k (es.foldl (fun c p => eraseA p.1 c) l) = none := by
  induction es generalizing l with
  | nil => simp at h
  | cons p rest ih =>
    rw [List.foldl_cons]
    by_cases hp : p.1 = k
    · apply lookupA_none_of_sublist (foldl_eraseA_sublist rest (eraseA p.1 l))
      rw [hp]
      exact lookupA_eraseA_self k l hn
    · obtain ⟨q, hq, hqk⟩ := h
      rcases List.mem_cons.mp hq with hh | hh
      · exact absurd (hh ▸ hqk) hp
      · exact ih (nodupKeys_eraseA p.1 hn) ⟨q, hh, hqk⟩

theorem lookupA_foldl_eraseA_other {α : Type} {k : String}
    {es : List (String × AlertCandidate)} {l : List (String × α)}
    (h : ∀ p ∈ es, p.1 ≠ k) :
    lookupA k (es.foldl (fun c p => eraseA p.1 c) l) = lookupA k l := by
  induction es generalizing l with
  | nil => simp
  | cons p rest ih =>
    rw [List.foldl_cons]
    rw [ih fun q hq => h q (List.mem_cons_of_mem p hq)]
    exact lookupA_eraseA_ne k p.1 l (h p (List.mem_cons_self p rest))

end SiteAlertAggregator

namespace SiteAlertAggregator

theorem phase1_cam_eq_camFold (cfg : Config) (now : Int)
    (l : List (String × List (String × AlertCandidate))) (s : State)
    (acts : List AlertAction) (cd : List (String × Int))
    (hnd : (l.map Prod.fst).Nodup)
    (hcd : ∀ e ∈ l, lookupA e.1 s.site_cooldown = lookupA e.1 cd) :
    (phase1 cfg now l (s, acts)).1.pending_by_camera = camFold cfg now cd l s.pending_by_camera :=
  phase1_cam_char cfg now l s acts cd hnd hcd

theorem camFold_sublist (cfg : Config) (now : Int) (cd : List (String × Int))
    (l : List (String × List (String × AlertCandidate)))
    (cp : List (String × AlertCandidate)) : (camFold cfg now cd l cp).Sublist cp := by
  induction l generalizing cp with
  | nil => simp [camFold]
  | cons e rest ih =>
    rw [camFold, List.foldl_cons]
    by_cases hf : fireE cfg now cd e.1 e.2 = true
    · rw [if_pos hf]
      exact (ih _).trans (foldl_eraseA_sublist _ cp)
    · rw [if_neg hf]
      exact ih cp

theorem camFold_lookup_none (cfg : Config) (now : Int) (cd : List (String × Int))
    {l : List (String × List (String × AlertCandidate))}
    {cp : List (String × AlertCandidate)} {k : String}
    (hn : (cp.map Prod.fst).Nodup)
    (h : ∃ e ∈ l, fireE cfg now cd e.1 e.2 = true ∧ ∃ p ∈ activeFilter cfg now e.2, p.1 = k) :
    lookupA k (camFold cfg now cd l cp) = none := by
  induction l generalizing cp with
  | nil => simp at h
  | cons e rest ih =>
    obtain ⟨e', he', hf', hp'⟩ := h
    rw [camFold, List.foldl_cons]
    rcases List.mem_cons.mp he' with hh | hh
    · subst hh
      rw [if_pos hf']
      apply lookupA_none_of_sublist (camFold_sublist cfg now cd rest _)
      exact lookupA_foldl_eraseA_none hn hp'
    · by_cases hf : fireE cfg now cd e.1 e.2 = true
      · rw [if_pos hf]
        exact ih ((foldl_eraseA_sublist _ cp).map Prod.fst |>.nodup hn) ⟨e', hh, hf', hp'⟩
      · rw [if_neg hf]
        exact ih hn ⟨e', hh, hf', hp'⟩

theorem camFold_lookup_other (cfg : Config) (now : Int) (cd : List (String × Int))
    {l : List (String × List (String × AlertCandidate))}
    {cp : List (String × AlertCandidate)} {k : String}
    (h : ∀ e ∈ l, fireE cfg now cd e.1 e.2 = true → ∀ p ∈ activeFilter cfg now e.2, p.1 ≠ k) :
    lookupA k (camFold cfg now cd l cp) = lookupA k cp := by
  induction l generalizing cp with
  | nil => simp [camFold]
  | cons e rest ih =>
    rw [camFold, List.foldl_cons]
    by_cases hf : fireE cfg now cd e.1 e.2 = true
    · rw [if_pos hf]
      have h2 :
          lookupA k (camFold cfg now cd rest
              ((activeFilter cfg now e.2).foldl (fun c p => eraseA p.1 c) cp)) =
            lookupA k ((activeFilter cfg now e.2).foldl (fun c p => eraseA p.1 c) cp) :=
        ih fun e' he' => h e' (List.mem_cons_of_mem e he')
      exact h2.trans (lookupA_foldl_eraseA_other (h e (List.mem_cons_self e rest) hf))
    · rw [if_neg hf]
      exact ih fun e' he' => h e' (List.mem_cons_of_mem e he')

theorem mem_insertA {α : Type} {p : String × α} {k : String} {v : α} {l : List (String × α)}
    (h : p ∈ insertA k v l) : p ∈ l ∨ p = (k, v) := by
  induction l with
  | nil => simp [insertA] at h; right; exact h
  | cons q rest ih =>
    by_cases hq : q.1 = k
    · rw [insertA] at h
      obtain ⟨a, b⟩ := q
      simp only at hq
      rw [if_pos hq] at h
      rcases List.mem_cons.mp h with hh | hh
      · right; exact hh
      · left; exact List.mem_cons_of_mem _ hh
    · rw [insertA] at h
      obtain ⟨a, b⟩ := q
      simp only at hq
      rw [if_neg hq] at h
      rcases List.mem_cons.mp h with hh | hh
      · left; exact hh ▸ List.mem_cons_self _ _
      · rcases ih hh with hh' | hh'
        · left; exact List.mem_cons_of_mem _ hh'
        · right; exact hh'

end SiteAlertAggregator

theorem keys_mem_insertA {α : Type} {k k' : String} {v : α} {l : List (String × α)}
    (h : k' ∈ (insertA k v l).map Prod.fst) : k' ∈ l.map Prod.fst ∨ k' = k := by
  rcases keys_insertA k v l with he | he
  · left; exact he ▸ h
  · rw [he, List.mem_append] at h
    rcases h with h | h
    · left; exact h
    · right; simpa using h

namespace SiteAlertAggregator

theorem processSite_site_nodup {cfg : Config} {now : Int} {s : State} {acts : List AlertAction}
    {site_id : String} {pool : List (String × AlertCandidate)}
    (h : (s.pending_by_site.map Prod.fst).Nodup) :
    ((processSite cfg now (s, acts) site_id pool).1.pending_by_site.map Prod.fst).Nodup := by
  by_cases hf : fireE cfg now s.site_cooldown site_id pool = true
  · rw [processSite_fire hf]
    simp only []
    split
    · exact nodupKeys_eraseA _ h
    · exact nodupKeys_insertA _ _ h
  · rw [processSite_nofire (Bool.eq_false_iff.mpr hf)]
    simp only []
    split
    · exact nodupKeys_eraseA _ h
    · exact h

theorem phase1_site_lookup_other (cfg : Config) (now : Int) :
    ∀ (l : List (String × List (String × AlertCandidate))) (s : State)
      (acts : List AlertAction) (k : String),
      (∀ e ∈ l, e.1 ≠ k) →
      lookupA k (phase1 cfg now l (s, acts)).1.pending_by_site =
        lookupA k s.pending_by_site := by
  intro l
  induction l with
  | nil => intro s acts k _; simp [phase1]
  | cons e rest ih =>
    intro s acts k hk
    have hek : e.1 ≠ k := hk e (List.mem_cons_self e rest)
    rw [phase1]
    by_cases hf : fireE cfg now s.site_cooldown e.1 e.2 = true
    · rw [processSite_fire hf]
      rw [ih _ _ k fun e' he' => hk e' (List.mem_cons_of_mem e he')]
      simp only []
      split
      · exact lookupA_eraseA_ne k e.1 _ hek
      · exact lookupA_insertA_ne k e.1 _ _ hek
    · rw [processSite_nofire (Bool.eq_false_iff.mpr hf)]
      rw [ih _ _ k fun e' he' => hk e' (List.mem_cons_of_mem e he')]
      simp only []
      split
      · exact lookupA_eraseA_ne k e.1 _ hek
      · rfl

theorem phase1_site_lookup_mem (cfg : Config) (now : Int) :
    ∀ (l : List (String × List (String × AlertCandidate))) (s : State)
      (acts : List AlertAction) (cd : List (String × Int)) (k : String)
      (pool : List (String × AlertCandidate)),
      (l.map Prod.fst).Nodup →
      (∀ e ∈ l, lookupA e.1 s.site_cooldown = lookupA e.1 cd) →
      (s.pending_by_site.map Prod.fst).Nodup →
      (k, pool) ∈ l →
      lookupA k (phase1 cfg now l (s, acts)).1.pending_by_site =
        (if fireE cfg now cd k pool then
          (if ((activeFilter cfg now pool).foldl (fun p e => eraseA e.1 p) pool).isEmpty then
            none
          else some ((activeFilter cfg now pool).foldl (fun p e => eraseA e.1 p) pool))
        else if pool.isEmpty then none else lookupA k s.pending_by_site) := by
  intro l
  induction l with
  | nil => intro s acts cd k pool _ _ _ hm; simp at hm
  | cons e rest ih =>
    intro s acts cd k pool hnd hcd hsn hm
    simp only [List.map_cons, List.nodup_cons] at hnd
    have hhead : fireE cfg now s.site_cooldown e.1 e.2 = fireE cfg now cd e.1 e.2 :=
      fireE_congr (hcd e (List.mem_cons_self e rest))
    rw [phase1]
    rcases List.mem_cons.mp hm with hh | hh
    · have hek : e = (k, pool) := hh.symm
      subst hek
      have hrestk : ∀ e' ∈ rest, e'.1 ≠ k := by
        intro e' he' hk'
        apply hnd.1
        have hm2 : e'.1 ∈ rest.map Prod.fst := List.mem_map_of_mem Prod.fst he'
        rwa [hk'] at hm2
      by_cases hf : fireE cfg now cd k pool = true
      · rw [processSite_fire (hhead.trans hf)]
        rw [phase1_site_lookup_other cfg now rest _ _ k hrestk]
        simp only [hf, if_pos rfl]
        split
        · exact lookupA_eraseA_self k _ hsn
        · exact lookupA_insertA_self k _ _
      · have hf' : fireE cfg now cd k pool = false := Bool.eq_false_iff.mpr hf
        rw [processSite_nofire (hhead.trans hf')]
        rw [phase1_site_lookup_other cfg now rest _ _ k hrestk]
        simp only [hf', if_neg, Bool.false_eq_true, not_false_iff]
        split
        · exact lookupA_eraseA_self k _ hsn
        · rfl
    · have hek : e.1 ≠ k := by
        intro hk'
        apply hnd.1
        rw [hk']
        exact List.mem_map_of_mem Prod.fst hh
      by_cases hf : fireE cfg now s.site_cooldown e.1 e.2 = true
      · rw [processSite_fire hf]
        rw [ih _ _ cd k pool hnd.2 ?hcd ?hsn hh]
        · simp only []
          split
          · rfl
          · split
            · rfl
            · split
              · exact lookupA_eraseA_ne k e.1 _ hek
              · exact lookupA_insertA_ne k e.1 _ _ hek
        case hcd =>
          intro e' he'
          have hne : e'.1 ≠ e.1 := by
            intro hk'
            exact hnd.1 (hk' ▸ (List.mem_map_of_mem Prod.fst he'))
          simp only []
          rw [lookupA_insertA_ne _ _ _ _ hne.symm]
          exact hcd e' (List.mem_cons_of_mem e he')
        case hsn =>
          simp only []
          split
          · exact nodupKeys_eraseA _ hsn
          · exact nodupKeys_insertA _ _ hsn
      · rw [processSite_nofire (Bool.eq_false_iff.mpr hf)]
        rw [ih _ _ cd k pool hnd.2 ?hcd2 ?hsn2 hh]
        · simp only []
          split
          · rfl
          · split
            · rfl
            · split
              · exact lookupA_eraseA_ne k e.1 _ hek
              · rfl
        case hcd2 =>
          intro e' he'
          exact hcd e' (List.mem_cons_of_mem e he')
        case hsn2 =>
          simp only []
          split
          · exact nodupKeys_eraseA _ hsn
          · exact hsn

end SiteAlertAggregator

namespace SiteAlertAggregator

theorem processSite_site_pred {cfg : Config} {now : Int} {s : State} {acts : List AlertAction}
    {site_id : String} {site_pool : List (String × AlertCandidate)}
    (P : String × AlertCandidate → Prop)
    (hs : ∀ e ∈ s.pending_by_site, ∀ p ∈ e.2, P p)
    (hpool : ∀ p ∈ site_pool, P p) :
    ∀ e ∈ (processSite cfg now (s, acts) site_id site_pool).1.pending_by_site,
      ∀ p ∈ e.2, P p := by
  by_cases hf : fireE cfg now s.site_cooldown site_id site_pool = true
  · rw [processSite_fire hf]
    simp only []
    split
    · intro e he p hp
      exact hs e (mem_eraseA he) p hp
    · intro e he p hp
      rcases mem_insertA he with hh | hh
      · exact hs e hh p hp
      · subst hh
        exact hpool p ((foldl_eraseA_sublist _ site_pool).mem hp)
  · rw [processSite_nofire (Bool.eq_false_iff.mpr hf)]
    simp only []
    split
    · intro e he p hp
      exact hs e (mem_eraseA he) p hp
    · exact hs

theorem phase1_site_pred (cfg : Config) (now : Int) :
    ∀ (l : List (String × List (String × AlertCandidate))) (s : State)
      (acts : List AlertAction) (P : String × AlertCandidate → Prop),
      (∀ e ∈ s.pending_by_site, ∀ p ∈ e.2, P p) →
      (∀ e ∈ l, ∀ p ∈ e.2, P p) →
      ∀ e ∈ (phase1 cfg now l (s, acts)).1.pending_by_site, ∀ p ∈ e.2, P p := by
  intro l
  induction l with
  | nil => intro s acts P hs _; exact hs
  | cons e rest ih =>
    intro s acts P hs hl
    rw [phase1]
    have hstep := @processSite_site_pred cfg now s acts e.1 e.2 P hs
      (hl e (List.mem_cons_self e rest))
    rcases hacc : processSite cfg now (s, acts) e.1 e.2 with ⟨s', acts'⟩
    rw [hacc] at hstep
    exact ih s' acts' P hstep fun e' he' => hl e' (List.mem_cons_of_mem e he')

theorem phase1_site_keys_sub (cfg : Config) (now : Int) :
    ∀ (l : List (String × List (String × AlertCandidate))) (s : State)
      (acts : List AlertAction),
      ∀ e ∈ (phase1 cfg now l (s, acts)).1.pending_by_site,
        e.1 ∈ s.pending_by_site.map Prod.fst ∨ e.1 ∈ l.map Prod.fst := by
  intro l
  induction l with
  | nil =>
    intro s acts e he
    left
    exact List.mem_map_of_mem Prod.fst he
  | cons e rest ih =>
    intro s acts e' he'
    rw [phase1] at he'
    rcases hacc : processSite cfg now (s, acts) e.1 e.2 with ⟨s', acts'⟩
    rw [hacc] at he'
    rcases ih s' acts' e' he' with hh | hh
    · have hsub : ∀ k, k ∈ s'.pending_by_site.map Prod.fst →
          k ∈ s.pending_by_site.map Prod.fst ∨ k = e.1 := by
        intro k hk
        by_cases hf : fireE cfg now s.site_cooldown e.1 e.2 = true
        · rw [processSite_fire hf] at hacc
          have hs' := congrArg State.pending_by_site (congrArg Prod.fst hacc).symm
          simp only [] at hs'
          rw [hs'] at hk
          split at hk
          · left; exact (keys_eraseA_sublist e.1 _).mem hk
          · exact keys_mem_insertA hk
        · rw [processSite_nofire (Bool.eq_false_iff.mpr hf)] at hacc
          have hs' := congrArg State.pending_by_site (congrArg Prod.fst hacc).symm
          simp only [] at hs'
          rw [hs'] at hk
          split at hk
          · left; exact (keys_eraseA_sublist e.1 _).mem hk
          · left; exact hk
      rcases hsub e'.1 hh with hh' | hh'
      · left; exact hh'
      · right; rw [hh']; exact List.mem_cons_self e.1 _
    · right
      rw [List.map_cons]
      exact List.mem_cons_of_mem _ hh

theorem phase1_site_nodup (cfg : Config) (now : Int) :
    ∀ (l : List (String × List (String × AlertCandidate))) (s : State)
      (acts : List AlertAction),
      (s.pending_by_site.map Prod.fst).Nodup →
      ((phase1 cfg now l (s, acts)).1.pending_by_site.map Prod.fst).Nodup := by
  intro l
  induction l with
  | nil => intro s acts h; exact h
  | cons e rest ih =>
    intro s acts h
    rw [phase1]
    rcases hacc : processSite cfg now (s, acts) e.1 e.2 with ⟨s', acts'⟩
    have hstep : (s'.pending_by_site.map Prod.fst).Nodup := by
      have hnd := @processSite_site_nodup cfg now s acts e.1 e.2 h
      rw [hacc] at hnd
      exact hnd
    exact ih s' acts' hstep

end SiteAlertAggregator

namespace SiteAlertAggregator

theorem processCam_fire {cfg : Config} {now : Int} {s : State} {acts : List AlertAction}
    {camera_id : String} {candidate : AlertCandidate}
    (h : cfg.window ≤ now - candidate.ready_at) :
    processCam cfg now (s, acts) camera_id candidate =
      ({ s with
         pending_by_camera := eraseA camera_id s.pending_by_camera
         pending_by_site :=
           match lookupA candidate.site_id s.pending_by_site with
           | none => s.pending_by_site
           | some site_pool =>
             if (eraseA camera_id site_pool).isEmpty then
               eraseA candidate.site_id s.pending_by_site
             else insertA candidate.site_id (eraseA camera_id site_pool) s.pending_by_site },
       acts ++ [singleAction candidate]) := by
  simp [processCam, singleAction, h]

theorem processCam_nofire {cfg : Config} {now : Int} {s : State} {acts : List AlertAction}
    {camera_id : String} {candidate : AlertCandidate}
    (h : ¬ cfg.window ≤ now - candidate.ready_at) :
    processCam cfg now (s, acts) camera_id candidate = (s, acts) := by
  simp [processCam, h]

theorem phase2_acts_char (cfg : Config) (now : Int) :
    ∀ (l : List (String × AlertCandidate)) (s : State) (acts : List AlertAction),
      (phase2 cfg now l (s, acts)).2 =
        acts ++ l.filterMap fun e =>
          if cfg.window ≤ now - e.2.ready_at then some (singleAction e.2) else none := by
  intro l
  induction l with
  | nil => intro s acts; simp [phase2]
  | cons e rest ih =>
    intro s acts
    rw [phase2]
    by_cases h : cfg.window ≤ now - e.2.ready_at
    · rw [processCam_fire h, ih]
      simp [h]
    · rw [processCam_nofire h, ih]
      simp [h]

theorem phase2_cooldown (cfg : Config) (now : Int) :
    ∀ (l : List (String × AlertCandidate)) (s : State) (acts : List AlertAction),
      (phase2 cfg now l (s, acts)).1.site_cooldown = s.site_cooldown := by
  intro l
  induction l with
  | nil => intro s acts; rfl
  | cons e rest ih =>
    intro s acts
    rw [phase2]
    by_cases h : cfg.window ≤ now - e.2.ready_at
    · rw [processCam_fire h, ih]
    · rw [processCam_nofire h, ih]

theorem phase2_cam_sublist (cfg : Config) (now : Int) :
    ∀ (l : List (String × AlertCandidate)) (s : State) (acts : List AlertAction),
      (phase2 cfg now l (s, acts)).1.pending_by_camera.Sublist s.pending_by_camera := by
  intro l
  induction l with
  | nil => intro s acts; exact List.Sublist.refl _
  | cons e rest ih =>
    intro s acts
    rw [phase2]
    by_cases h : cfg.window ≤ now - e.2.ready_at
    · rw [processCam_fire h]
      exact (ih _ _).trans (eraseA_sublist _ _)
    · rw [processCam_nofire h]
      exact ih s acts

theorem processCam_fire_none {cfg : Config} {now : Int} {s : State} {acts : List AlertAction}
    {camera_id : String} {candidate : AlertCandidate}
    (h : cfg.window ≤ now - candidate.ready_at)
    (hlk : lookupA candidate.site_id s.pending_by_site = none) :
    processCam cfg now (s, acts) camera_id candidate =
      ({ s with pending_by_camera := eraseA camera_id s.pending_by_camera },
       acts ++ [singleAction candidate]) := by
  simp [processCam, singleAction, h, hlk]

theorem processCam_fire_some {cfg : Config} {now : Int} {s : State} {acts : List AlertAction}
    {camera_id : String} {candidate : AlertCandidate}
    {pool : List (String × AlertCandidate)}
    (h : cfg.window ≤ now - candidate.ready_at)
    (hlk : lookupA candidate.site_id s.pending_by_site = some pool) :
    processCam cfg now (s, acts) camera_id candidate =
      ({ s with
         pending_by_camera := eraseA camera_id s.pending_by_camera
         pending_by_site :=
           if (eraseA camera_id pool).isEmpty then
             eraseA candidate.site_id s.pending_by_site
           else insertA candidate.site_id (eraseA camera_id pool) s.pending_by_site },
       acts ++ [singleAction candidate]) := by
  simp [processCam, singleAction, h, hlk]

theorem processCam_site_pred {cfg : Config} {now : Int} {s : State} {acts : List AlertAction}
    {camera_id : String} {candidate : AlertCandidate}
    (P : String × AlertCandidate → Prop)
    (hs : ∀ e ∈ s.pending_by_site, ∀ p ∈ e.2, P p) :
    ∀ e ∈ (processCam cfg now (s, acts) camera_id candidate).1.pending_by_site,
      ∀ p ∈ e.2, P p := by
  by_cases h : cfg.window ≤ now - candidate.ready_at
  · rcases hlk : lookupA candidate.site_id s.pending_by_site with _ | pool
    · rw [processCam_fire_none h hlk]
      exact hs
    · rw [processCam_fire_some h hlk]
      have hpool : ∀ p ∈ pool, P p := hs _ (lookupA_mem hlk)
      simp only []
      split
      · intro e he p hp
        exact hs e (mem_eraseA he) p hp
      · intro e he p hp
        rcases mem_insertA he with hh | hh
        · exact hs e hh p hp
        · subst hh
          exact hpool p (mem_eraseA hp)
  · rw [processCam_nofire h]
    exact hs

theorem phase2_site_pred (cfg : Config) (now : Int) :
    ∀ (l : List (String × AlertCandidate)) (s : State) (acts : List AlertAction)
      (P : String × AlertCandidate → Prop),
      (∀ e ∈ s.pending_by_site, ∀ p ∈ e.2, P p) →
      ∀ e ∈ (phase2 cfg now l (s, acts)).1.pending_by_site, ∀ p ∈ e.2, P p := by
  intro l
  induction l with
  | nil => intro s acts P hs; exact hs
  | cons e rest ih =>
    intro s acts P hs
    rw [phase2]
    have hstep := @processCam_site_pred cfg now s acts e.1 e.2 P hs
    rcases hacc : processCam cfg now (s, acts) e.1 e.2 with ⟨s', acts'⟩
    rw [hacc] at hstep
    exact ih s' acts' P hstep

end SiteAlertAggregator

namespace SiteAlertAggregator

theorem phase1_acts_shape (cfg : Config) (now : Int) :
    ∀ (l : List (String × List (String × AlertCandidate))) (s : State)
      (acts : List AlertAction),
      ∀ a ∈ (phase1 cfg now l (s, acts)).2,
        a ∈ acts ∨ ∃ site_id pool, a = aggAction cfg now site_id pool := by
  intro l
  induction l with
  | nil => intro s acts a ha; left; exact ha
  | cons e rest ih =>
    intro s acts a ha
    rw [phase1] at ha
    by_cases hf : fireE cfg now s.site_cooldown e.1 e.2 = true
    · rw [processSite_fire hf] at ha
      rcases ih _ _ a ha with hh | hh
      · rcases List.mem_append.mp hh with hh' | hh'
        · left; exact hh'
        · right
          exact ⟨e.1, e.2, (List.mem_singleton.mp hh')⟩
      · right; exact hh
    · rw [processSite_nofire (Bool.eq_false_iff.mpr hf)] at ha
      exact ih _ _ a ha

theorem phase2_acts_shape (cfg : Config) (now : Int)
    (l : List (String × AlertCandidate)) (s : State) (acts : List AlertAction) :
    ∀ a ∈ (phase2 cfg now l (s, acts)).2, a ∈ acts ∨ ∃ c, a = singleAction c := by
  intro a ha
  rw [phase2_acts_char] at ha
  rcases List.mem_append.mp ha with hh | hh
  · left; exact hh
  · right
    obtain ⟨e, _, he⟩ := List.mem_filterMap.mp hh
    refine ⟨e.2, ?_⟩
    by_cases hc : cfg.window ≤ now - e.2.ready_at
    · rw [if_pos hc] at he
      injection he with he'
      exact he'.symm
    · rw [if_neg hc] at he
      exact absurd he (by simp)

theorem process_acts_shape (cfg : Config) (now : Int) (s : State) :
    ∀ a ∈ (process cfg now s).1,
      (∃ site_id pool, a = aggAction cfg now site_id pool) ∨ ∃ c, a = singleAction c := by
  intro a ha
  rw [process] at ha
  simp only [] at ha
  rcases hp1 : phase1 cfg now s.pending_by_site (s, []) with ⟨s1, acts1⟩
  rw [hp1] at ha
  rcases phase2_acts_shape cfg now s1.pending_by_camera s1 acts1 a ha with hh | hh
  · have := phase1_acts_shape cfg now s.pending_by_site s [] a (by rw [hp1]; exact hh)
    rcases this with hh' | hh'
    · exact absurd hh' (List.not_mem_nil a)
    · left; exact hh'
  · right; exact hh

theorem within_washdown_iff (cfg : Config) (candidates : List AlertCandidate) :
    within_washdown cfg candidates = true ↔ inWashdownSpec cfg candidates := by
  rw [within_washdown, inWashdownSpec]
  by_cases hemp : cfg.washdown_schedule.isEmpty
  · rw [if_pos hemp]
    rw [List.isEmpty_iff] at hemp
    simp [hemp]
  · rw [if_neg hemp]
    rw [List.any_eq_true]
    constructor
    · rintro ⟨c, hc, hw⟩
      rw [List.any_eq_true] at hw
      obtain ⟨w, hwmem, hcond⟩ := hw
      refine ⟨c, hc, w, hwmem, ?_⟩
      by_cases hwle : w.1 ≤ w.2
      · rw [if_pos hwle] at hcond ⊢
        simpa using hcond
      · rw [if_neg hwle] at hcond ⊢
        simpa using hcond
    · rintro ⟨c, hc, w, hwmem, hcond⟩
      refine ⟨c, hc, ?_⟩
      rw [List.any_eq_true]
      refine ⟨w, hwmem, ?_⟩
      by_cases hwle : w.1 ≤ w.2
      · rw [if_pos hwle] at hcond ⊢
        simpa using hcond
      · rw [if_neg hwle] at hcond ⊢
        simpa using hcond

end SiteAlertAggregator

namespace SiteAlertAggregator

theorem phase1_cooldown_blocked (cfg : Config) (now : Int) {site_id : String} {d : Int}
    (hnow : now < d) :
    ∀ (l : List (String × List (String × AlertCandidate))) (s : State)
      (acts : List AlertAction),
      lookupA site_id s.site_cooldown = some d →
      lookupA site_id (phase1 cfg now l (s, acts)).1.site_cooldown = some d ∧
        ∀ a ∈ (phase1 cfg now l (s, acts)).2,
          a ∈ acts ∨ ¬(a.kind = "aggregate" ∧ a.site_id = site_id) := by
  intro l
  induction l with
  | nil =>
    intro s acts hcd
    exact ⟨hcd, fun a ha => Or.inl ha⟩
  | cons e rest ih =>
    intro s acts hcd
    rw [phase1]
    by_cases hek : e.1 = site_id
    · have hnofire : fireE cfg now s.site_cooldown e.1 e.2 = false := by
        rw [fireE, cooldownOk, hek, hcd]
        have hd : ¬ d ≤ now := by omega
        simp [hd]
      rw [processSite_nofire hnofire]
      exact ih _ _ hcd
    · by_cases hf : fireE cfg now s.site_cooldown e.1 e.2 = true
      · rw [processSite_fire hf]
        have hcd' : lookupA site_id
            (insertA e.1 (now + cfg.suppress) s.site_cooldown) = some d := by
          rw [lookupA_insertA_ne _ _ _ _ hek, hcd]
        obtain ⟨h1, h2⟩ := ih
          { pending_by_camera :=
              (activeFilter cfg now e.2).foldl (fun cp p => eraseA p.1 cp) s.pending_by_camera
            pending_by_site :=
              if ((activeFilter cfg now e.2).foldl (fun p q => eraseA q.1 p) e.2).isEmpty then
                eraseA e.1 s.pending_by_site
              else
                insertA e.1 ((activeFilter cfg now e.2).foldl (fun p q => eraseA q.1 p) e.2)
                  s.pending_by_site
            site_cooldown := insertA e.1 (now + cfg.suppress) s.site_cooldown }
          (acts ++ [aggAction cfg now e.1 e.2]) hcd'
        refine ⟨h1, fun a ha => ?_⟩
        rcases h2 a ha with hh | hh
        · rcases List.mem_append.mp hh with hh' | hh'
          · left; exact hh'
          · right
            have ha' : a = aggAction cfg now e.1 e.2 := List.mem_singleton.mp hh'
            rintro ⟨_, hsite⟩
            apply hek
            rw [← hsite, ha']
            rfl
        · right; exact hh
      · rw [processSite_nofire (Bool.eq_false_iff.mpr hf)]
        exact ih _ _ hcd

theorem process_cooldown_blocked (cfg : Config) (now : Int) {site_id : String} {d : Int}
    (s : State) (hcd : lookupA site_id s.site_cooldown = some d) (hnow : now < d) :
    (∀ a ∈ (process cfg now s).1, ¬(a.kind = "aggregate" ∧ a.site_id = site_id)) ∧
      lookupA site_id (process cfg now s).2.site_cooldown = some d := by
  rw [process]
  simp only []
  rcases hp1 : phase1 cfg now s.pending_by_site (s, []) with ⟨s1, acts1⟩
  obtain ⟨h1, h2⟩ := phase1_cooldown_blocked cfg now hnow s.pending_by_site s [] hcd
  rw [hp1] at h1 h2
  constructor
  · intro a ha
    rcases phase2_acts_shape cfg now s1.pending_by_camera s1 acts1 a ha with hh | hh
    · rcases h2 a hh with hh' | hh'
      · exact absurd hh' (List.not_mem_nil a)
      · exact hh'
    · obtain ⟨c, hc⟩ := hh
      rintro ⟨hkind, _⟩
      rw [hc] at hkind
      simp [singleAction] at hkind
  · rw [phase2_cooldown]
    exact h1

theorem enqueue_site_cooldown (c : AlertCandidate) (s : State) :
    (enqueue c s).site_cooldown = s.site_cooldown := rfl

theorem cancel_site_cooldown (camera_id : String) (s : State) :
    (cancel camera_id s).site_cooldown = s.site_cooldown := by
  rw [cancel]
  rcases lookupA camera_id s.pending_by_camera with _ | c
  · rfl
  · simp only []
    rcases lookupA c.site_id s.pending_by_site with _ | pool
    · rfl
    · simp only []

theorem runOps_no_aggregate (cfg : Config) {site_id : String} {d : Int} :
    ∀ (ops : List AggOp) (s : State),
      lookupA site_id s.site_cooldown = some d →
      opsBefore d ops = true →
      ∀ a ∈ (runOps cfg ops s).2, ¬(a.kind = "aggregate" ∧ a.site_id = site_id) := by
  intro ops
  induction ops with
  | nil => intro s _ _ a ha; simp [runOps] at ha
  | cons op rest ih =>
    intro s hcd hops a ha
    rw [opsBefore, List.all_cons, Bool.and_eq_true] at hops
    match op with
    | .enq c =>
      rw [runOps] at ha
      exact ih (enqueue c s) (by rw [enqueue_site_cooldown]; exact hcd) hops.2 a ha
    | .cel camera_id =>
      rw [runOps] at ha
      exact ih (cancel camera_id s) (by rw [cancel_site_cooldown]; exact hcd) hops.2 a ha
    | .fl t =>
      rw [runOps] at ha
      simp only [] at ha
      have ht : t < d := by
        have := hops.1
        simp only [decide_eq_true_eq] at this
        exact this
      obtain ⟨hblock, hcd'⟩ := process_cooldown_blocked cfg t s hcd ht
      rcases List.mem_append.mp ha with hh | hh
      · exact hblock a hh
      · exact ih _ hcd' hops.2 a hh

end SiteAlertAggregator

namespace SiteAlertAggregator

theorem wf_parts {s : State} (h : wf s = true) :
    (s.pending_by_camera.map Prod.fst).Nodup ∧
    (s.pending_by_site.map Prod.fst).Nodup ∧
    (∀ e ∈ s.pending_by_site,
      ¬ e.2.isEmpty ∧ (e.2.map Prod.fst).Nodup ∧
      ∀ p ∈ e.2,
        p.2.camera_id = p.1 ∧ p.2.site_id = e.1 ∧
        lookupA p.1 s.pending_by_camera = some p.2) ∧
    (∀ p ∈ s.pending_by_camera,
      p.2.camera_id = p.1 ∧
      (lookupA p.2.site_id s.pending_by_site).bind (lookupA p.1) = some p.2) := by
  rw [wf] at h
  simp only [Bool.and_eq_true, List.all_eq_true, decide_eq_true_eq,
    Bool.not_eq_true'] at h
  obtain ⟨⟨⟨h1, h2⟩, h3⟩, h4⟩ := h
  refine ⟨h1, h2, ?_, ?_⟩
  · intro e he
    obtain ⟨⟨hne, hnd⟩, hall⟩ := h3 e he
    refine ⟨?_, hnd, ?_⟩
    · rw [Bool.not_eq_true]; exact hne
    · intro p hp
      obtain ⟨⟨hcam, hsite⟩, hlk⟩ := hall p hp
      exact ⟨hcam, hsite, hlk⟩
  · intro p hp
    obtain ⟨hcam, hlk⟩ := h4 p hp
    exact ⟨hcam, hlk⟩

theorem wf_pool_lookup_cam {s : State} (h : wf s = true)
    {site_id : String} {pool : List (String × AlertCandidate)}
    (hm : (site_id, pool) ∈ s.pending_by_site) {k : String} {c : AlertCandidate}
    (hp : (k, c) ∈ pool) :
    lookupA k s.pending_by_camera = some c ∧ c.camera_id = k ∧ c.site_id = site_id := by
  obtain ⟨_, _, h3, _⟩ := wf_parts h
  obtain ⟨_, _, hall⟩ := h3 (site_id, pool) hm
  obtain ⟨hcam, hsite, hlk⟩ := hall (k, c) hp
  exact ⟨hlk, hcam, hsite⟩

/-- Under `wf` a camera key sits in at most one site pool: any pool entry
keyed `k` in any site pool is the unique candidate `lookupA k` of the
global pool names, and its pool is its candidate's `site_id`. -/
theorem wf_unique {s : State} (h : wf s = true) {k : String} {c : AlertCandidate}
    (hc : lookupA k s.pending_by_camera = some c) :
    ∀ e ∈ s.pending_by_site, ∀ p ∈ e.2, p.1 = k → e.1 = c.site_id ∧ p.2 = c := by
  intro e he p hp hpk
  obtain ⟨p1, p2⟩ := p
  simp only [] at hpk
  subst hpk
  obtain ⟨hlk, _, hsite⟩ := wf_pool_lookup_cam h he hp
  rw [hc] at hlk
  injection hlk with hv
  subst hv
  exact ⟨hsite.symm, rfl⟩

end SiteAlertAggregator

namespace SiteAlertAggregator

theorem process_fst (cfg : Config) (now : Int) (s : State) :
    (process cfg now s).1 =
      (phase2 cfg now (phase1State cfg now s).pending_by_camera
        (phase1State cfg now s, phase1Acts cfg now s)).2 := rfl

theorem process_snd (cfg : Config) (now : Int) (s : State) :
    (process cfg now s).2 =
      (phase2 cfg now (phase1State cfg now s).pending_by_camera
        (phase1State cfg now s, phase1Acts cfg now s)).1 := rfl

theorem process_out (cfg : Config) (now : Int) (s : State)
    (hnd : (s.pending_by_site.map Prod.fst).Nodup) :
    (process cfg now s).1 =
      (s.pending_by_site.filterMap fun e =>
        if fireE cfg now s.site_cooldown e.1 e.2 then some (aggAction cfg now e.1 e.2)
        else none) ++
      ((phase1State cfg now s).pending_by_camera.filterMap fun e =>
        if cfg.window ≤ now - e.2.ready_at then some (singleAction e.2) else none) := by
  rw [process_fst, phase2_acts_char]
  have h1 : phase1Acts cfg now s =
      s.pending_by_site.filterMap fun e =>
        if fireE cfg now s.site_cooldown e.1 e.2 then some (aggAction cfg now e.1 e.2)
        else none := by
    rw [phase1Acts, phase1_acts_char cfg now s.pending_by_site s [] s.site_cooldown hnd
      (fun e _ => rfl)]
    simp
  rw [h1]

theorem phase1State_cam (cfg : Config) (now : Int) (s : State)
    (hnd : (s.pending_by_site.map Prod.fst).Nodup) :
    (phase1State cfg now s).pending_by_camera =
      camFold cfg now s.site_cooldown s.pending_by_site s.pending_by_camera := by
  rw [phase1State]
  exact phase1_cam_eq_camFold cfg now s.pending_by_site s [] s.site_cooldown hnd fun e _ => rfl

end SiteAlertAggregator

theorem mem_keys_exists {α : Type} {k : String} {l : List (String × α)}
    (h : k ∈ l.map Prod.fst) : ∃ v, (k, v) ∈ l := by
  obtain ⟨p, hp, hpk⟩ := List.mem_map.mp h
  exact ⟨p.2, by rw [← hpk]; exact hp⟩

namespace SiteAlertAggregator

theorem phase1State_site_nok (cfg : Config) (now : Int) (s : State)
    {site_id : String} {pool : List (String × AlertCandidate)}
    (hwf : wf s = true)
    (hlk : lookupA site_id s.pending_by_site = some pool)
    (hf : fireE cfg now s.site_cooldown site_id pool = true)
    {k : String} {c : AlertCandidate} (hp : (k, c) ∈ activeFilter cfg now pool) :
    ∀ e ∈ (phase1State cfg now s).pending_by_site, ∀ q ∈ e.2, q.1 ≠ k := by
  obtain ⟨hcamN, hsiteN, hpools, _⟩ := wf_parts hwf
  have hmem : (site_id, pool) ∈ s.pending_by_site := lookupA_mem hlk
  have hppool : (k, c) ∈ pool := List.mem_of_mem_filter hp
  obtain ⟨hkc, _, hcsite⟩ := wf_pool_lookup_cam hwf hmem hppool
  intro e he q hq hqk
  have hkeys := phase1_site_keys_sub cfg now s.pending_by_site s [] e he
  have hkey : e.1 ∈ s.pending_by_site.map Prod.fst := by
    rcases hkeys with hh | hh
    · exact hh
    · exact hh
  obtain ⟨pool0, hpool0⟩ := mem_keys_exists hkey
  have hlk0 : lookupA e.1 s.pending_by_site = some pool0 := mem_lookupA hsiteN hpool0
  have hlq : lookupA e.1 (phase1State cfg now s).pending_by_site = some e.2 := by
    apply mem_lookupA ?_ he
    exact phase1_site_nodup cfg now s.pending_by_site s [] hsiteN
  have hchar := phase1_site_lookup_mem cfg now s.pending_by_site s [] s.site_cooldown e.1 pool0
    hsiteN (fun _ _ => rfl) hsiteN hpool0
  rw [phase1State] at hlq
  rw [hlq] at hchar
  by_cases hee : e.1 = site_id
  · subst hee
    have hpe : pool0 = pool := by
      rw [hlk0] at hlk
      injection hlk
    subst hpe
    rw [if_pos hf] at hchar
    have hremn : lookupA k ((activeFilter cfg now pool0).foldl (fun p e => eraseA e.1 p) pool0)
        = none := by
      apply lookupA_foldl_eraseA_none
      · exact (hpools (e.1, pool0) hmem).2.1
      · exact ⟨(k, c), hp, rfl⟩
    split at hchar
    · exact Option.noConfusion hchar
    · injection hchar with hchar'
      rw [lookupA_eq_none_iff] at hremn
      exact hremn q (hchar' ▸ hq) hqk
  · have hq0 : q ∈ pool0 := by
      by_cases hf0 : fireE cfg now s.site_cooldown e.1 pool0 = true
      · rw [if_pos hf0] at hchar
        split at hchar
        · exact Option.noConfusion hchar
        · injection hchar with hchar'
          exact (foldl_eraseA_sublist _ pool0).mem (hchar' ▸ hq)
      · rw [if_neg hf0] at hchar
        split at hchar
        · exact Option.noConfusion hchar
        · rw [hlk0] at hchar
          injection hchar with hchar'
          exact hchar' ▸ hq
    have := wf_unique hwf hkc (e.1, pool0) hpool0 q hq0 hqk
    exact hee (this.1.trans hcsite)

theorem process_removes_active (cfg : Config) (now : Int) (s : State)
    {site_id : String} {pool : List (String × AlertCandidate)}
    (hwf : wf s = true)
    (hlk : lookupA site_id s.pending_by_site = some pool)
    (hf : fireE cfg now s.site_cooldown site_id pool = true) :
    ∀ p ∈ activeFilter cfg now pool,
      lookupA p.1 (process cfg now s).2.pending_by_camera = none ∧
      ∀ e ∈ (process cfg now s).2.pending_by_site, lookupA p.1 e.2 = none := by
  obtain ⟨hcamN, hsiteN, _, _⟩ := wf_parts hwf
  intro p hp
  obtain ⟨k, c⟩ := p
  have hmem : (site_id, pool) ∈ s.pending_by_site := lookupA_mem hlk
  constructor
  · have h1 : lookupA k (phase1State cfg now s).pending_by_camera = none := by
      rw [phase1State_cam cfg now s hsiteN]
      exact camFold_lookup_none cfg now s.site_cooldown hcamN
        ⟨(site_id, pool), hmem, hf, (k, c), hp, rfl⟩
    rw [process_snd]
    exact lookupA_none_of_sublist (phase2_cam_sublist cfg now _ _ _) h1
  · have h1 := phase1State_site_nok cfg now s hwf hlk hf hp
    rw [process_snd]
    intro e he
    rw [lookupA_eq_none_iff]
    exact phase2_site_pred cfg now (phase1State cfg now s).pending_by_camera
      (phase1State cfg now s) (phase1Acts cfg now s) (fun q => q.1 ≠ k) h1 e he
end SiteAlertAggregator

namespace SiteAlertAggregator

theorem process_cooldown_fired (cfg : Config) (now : Int) (s : State)
    {site_id : String} {pool : List (String × AlertCandidate)}
    (hsiteN : (s.pending_by_site.map Prod.fst).Nodup)
    (hlk : lookupA site_id s.pending_by_site = some pool)
    (hf : fireE cfg now s.site_cooldown site_id pool = true) :
    lookupA site_id (process cfg now s).2.site_cooldown = some (now + cfg.suppress) := by
  rw [process_snd, phase2_cooldown]
  rw [phase1State]
  rw [phase1_cooldown_char cfg now s.pending_by_site s [] s.site_cooldown site_id hsiteN
    (fun _ _ => rfl)]
  rw [hlk]
  simp [hf]

end SiteAlertAggregator

open SiteAlertAggregator in
/-- C3: `flush(now)` emits an aggregate `AlertAction` for a site iff the
number of the site's pooled candidates with `now - ready_at <= window` is
at least `min_count` and (no cooldown is recorded for the site, or
`now >= cooldown`); when it emits, the emitted candidates are removed from
both pools, the site's cooldown is set to `now + suppress`, and no flush
at any time strictly before `now + suppress` emits another aggregate for
that site (through any interleaving of enqueues, cancels, and flushes),
even if quorum is met again. -/
theorem claim_C3 (cfg : Config) (now : Int) (s : State) (site_id : String)
    (hwf : wf s = true) (hmc : 1 ≤ cfg.min_count) :
    ((∃ a ∈ (process cfg now s).1, a.kind = "aggregate" ∧ a.site_id = site_id) ↔
      (cfg.min_count ≤
          ((activeFilter cfg now ((lookupA site_id s.pending_by_site).getD [])).length : Int) ∧
        cooldownOk now s.site_cooldown site_id = true)) ∧
    ((cfg.min_count ≤
          ((activeFilter cfg now ((lookupA site_id s.pending_by_site).getD [])).length : Int) ∧
        cooldownOk now s.site_cooldown site_id = true) →
      lookupA site_id (process cfg now s).2.site_cooldown = some (now + cfg.suppress) ∧
      (∀ p ∈ activeFilter cfg now ((lookupA site_id s.pending_by_site).getD []),
        lookupA p.1 (process cfg now s).2.pending_by_camera = none ∧
        ∀ e ∈ (process cfg now s).2.pending_by_site, lookupA p.1 e.2 = none) ∧
      (∀ ops : List AggOp, opsBefore (now + cfg.suppress) ops = true →
        ∀ a ∈ (runOps cfg ops (process cfg now s).2).2,
          ¬(a.kind = "aggregate" ∧ a.site_id = site_id))) := by
  obtain ⟨hcamN, hsiteN, _, _⟩ := wf_parts hwf
  have hcond : ∀ hcnt : cfg.min_count ≤
      ((activeFilter cfg now ((lookupA site_id s.pending_by_site).getD [])).length : Int),
      ∀ hcd : cooldownOk now s.site_cooldown site_id = true,
      ∃ pool, lookupA site_id s.pending_by_site = some pool ∧
        fireE cfg now s.site_cooldown site_id pool = true := by
    intro hcnt hcd
    rcases hlk : lookupA site_id s.pending_by_site with _ | pool
    · rw [hlk] at hcnt
      simp only [Option.getD_none] at hcnt
      have : activeFilter cfg now ([] : List (String × AlertCandidate)) = [] := rfl
      rw [this] at hcnt
      simp at hcnt
      omega
    · rw [hlk] at hcnt
      simp only [Option.getD_some] at hcnt
      refine ⟨pool, rfl, ?_⟩
      rw [fireE, Bool.and_eq_true]
      exact ⟨by simpa using hcnt, hcd⟩
  constructor
  · constructor
    · rintro ⟨a, ha, hk, hsid⟩
      rw [process_out cfg now s hsiteN] at ha
      rcases List.mem_append.mp ha with hh | hh
      · obtain ⟨e, he, heq⟩ := List.mem_filterMap.mp hh
        by_cases hf : fireE cfg now s.site_cooldown e.1 e.2 = true
        · rw [if_pos hf] at heq
          injection heq with heq'
          have hsid' : e.1 = site_id := by
            rw [← hsid, ← heq']
            rfl
          have hme : (site_id, e.2) ∈ s.pending_by_site := by
            rw [← hsid']
            exact he
          have hlk : lookupA site_id s.pending_by_site = some e.2 := mem_lookupA hsiteN hme
          rw [hlk]
          simp only [Option.getD_some]
          rw [hsid'] at hf
          rw [fireE, Bool.and_eq_true] at hf
          refine ⟨by simpa using hf.1, hf.2⟩
        · rw [if_neg hf] at heq
          exact Option.noConfusion heq
      · obtain ⟨e, _, heq⟩ := List.mem_filterMap.mp hh
        by_cases hc : cfg.window ≤ now - e.2.ready_at
        · rw [if_pos hc] at heq
          injection heq with heq'
          rw [← heq'] at hk
          simp [singleAction] at hk
        · rw [if_neg hc] at heq
          exact Option.noConfusion heq
    · rintro ⟨hcnt, hcd⟩
      obtain ⟨pool, hlk, hf⟩ := hcond hcnt hcd
      refine ⟨aggAction cfg now site_id pool, ?_, rfl, rfl⟩
      rw [process_out cfg now s hsiteN]
      apply List.mem_append_left
      apply List.mem_filterMap.mpr
      exact ⟨(site_id, pool), lookupA_mem hlk, by rw [if_pos hf]⟩
  · rintro ⟨hcnt, hcd⟩
    obtain ⟨pool, hlk, hf⟩ := hcond hcnt hcd
    refine ⟨process_cooldown_fired cfg now s hsiteN hlk hf, ?_, ?_⟩
    · rw [hlk]
      simp only [Option.getD_some]
      exact process_removes_active cfg now s hwf hlk hf
    · intro ops hops a ha
      exact runOps_no_aggregate cfg ops (process cfg now s).2
        (process_cooldown_fired cfg now s hsiteN hlk hf) hops a ha

open SiteAlertAggregator in
theorem claim_C3_witness :
    (∃ a ∈ (process cfgW 0 sW).1, a.kind = "aggregate" ∧ a.site_id = "SiteA") ∧
    lookupA "SiteA" (process cfgW 0 sW).2.site_cooldown = some (0 + cfgW.suppress) ∧
    ∀ a ∈ (runOps cfgW [AggOp.fl 50] (process cfgW 0 sW).2).2,
      ¬(a.kind = "aggregate" ∧ a.site_id = "SiteA") := by
  have h := claim_C3 cfgW 0 sW "SiteA" (by decide) (by decide)
  have h2 := h.2 ⟨by decide, by decide⟩
  exact ⟨h.1.mpr ⟨by decide, by decide⟩, h2.1, fun a ha => h2.2.2 [AggOp.fl 50] (by decide) a ha⟩

open SiteAlertAggregator in
/-- C10: a site's cooldown suppresses only aggregate dispatches — during a
flush at `now` strictly before the site's recorded cooldown, a candidate
of that site whose age has reached the window is still emitted as a
`single` `AlertAction`, and no aggregate is emitted for the site. -/
theorem claim_C10 (cfg : Config) (s : State) (now : Int) (site_id camera_id : String)
    (c : AlertCandidate) (d : Int) (pool : List (String × AlertCandidate))
    (hwf : wf s = true)
    (hcd : lookupA site_id s.site_cooldown = some d) (hnow : now < d)
    (hpool : lookupA site_id s.pending_by_site = some pool)
    (hc : lookupA camera_id pool = some c)
    (hage : cfg.window ≤ now - c.ready_at) :
    singleAction c ∈ (process cfg now s).1 ∧
    ∀ a ∈ (process cfg now s).1, ¬(a.kind = "aggregate" ∧ a.site_id = site_id) := by
  obtain ⟨hcamN, hsiteN, _, _⟩ := wf_parts hwf
  have hmemsite : (site_id, pool) ∈ s.pending_by_site := lookupA_mem hpool
  have hmemc : (camera_id, c) ∈ pool := lookupA_mem hc
  obtain ⟨hkc, hcamid, hcsite⟩ := wf_pool_lookup_cam hwf hmemsite hmemc
  refine ⟨?_, (process_cooldown_blocked cfg now s hcd hnow).1⟩
  have hcamlk : lookupA camera_id (phase1State cfg now s).pending_by_camera = some c := by
    rw [phase1State_cam cfg now s hsiteN]
    rw [camFold_lookup_other cfg now s.site_cooldown ?_]
    · exact hkc
    · intro e he hf p hp hpk
      by_cases hee : e.1 = site_id
      · rw [fireE, cooldownOk, hee, hcd, Bool.and_eq_true] at hf
        have hd : ¬ d ≤ now := by omega
        simp [hd] at hf
      · have := wf_unique hwf hkc e he p (List.mem_of_mem_filter hp) hpk
        exact hee (this.1.trans hcsite)
  rw [process_out cfg now s hsiteN]
  apply List.mem_append_right
  apply List.mem_filterMap.mpr
  exact ⟨(camera_id, c), lookupA_mem hcamlk, by rw [if_pos hage]⟩

open SiteAlertAggregator in
theorem claim_C10_witness :
    singleAction candW9 ∈ (process cfgW10 20 sW10).1 ∧
    ∀ a ∈ (process cfgW10 20 sW10).1, ¬(a.kind = "aggregate" ∧ a.site_id = "SiteA") :=
  claim_C10 cfgW10 sW10 20 "SiteA" "CAM-09" candW9 100 [("CAM-09", candW9)]
    (by decide) (by decide) (by decide) (by decide) (by decide) (by decide)

open SiteAlertAggregator in
/-- C5: a candidate alone in its site, with aggregate quorum unmet, is
emitted by `flush(now)` as a `single` `AlertAction` exactly when
`now - ready_at >= window`; when `now - ready_at < window`, no action of
the flush references it. -/
theorem claim_C5 (cfg : Config) (s : State) (now : Int) (camera_id : String)
    (c : AlertCandidate)
    (hwf : wf s = true)
    (hpool : lookupA c.site_id s.pending_by_site = some [(camera_id, c)])
    (hq : ¬ cfg.min_count ≤ ((activeFilter cfg now [(camera_id, c)]).length : Int)) :
    (singleAction c ∈ (process cfg now s).1 ↔ cfg.window ≤ now - c.ready_at) ∧
    (now - c.ready_at < cfg.window →
      ∀ a ∈ (process cfg now s).1, ∀ x ∈ a.candidates, x.camera_id ≠ camera_id) := by
  obtain ⟨hcamN, hsiteN, hpools, _⟩ := wf_parts hwf
  have hmemsite : (c.site_id, [(camera_id, c)]) ∈ s.pending_by_site := lookupA_mem hpool
  have hmemc : (camera_id, c) ∈ [(camera_id, c)] := List.mem_singleton.mpr rfl
  obtain ⟨hkc, hcamid, _⟩ := wf_pool_lookup_cam hwf hmemsite hmemc
  have hnofire : ∀ pool', lookupA c.site_id s.pending_by_site = some pool' →
      fireE cfg now s.site_cooldown c.site_id pool' = false := by
    intro pool' hlk'
    rw [hpool] at hlk'
    injection hlk' with hlk'
    subst hlk'
    rw [fireE]
    have : decide (cfg.min_count ≤ ((activeFilter cfg now [(camera_id, c)]).length : Int))
        = false := by
      simp only [decide_eq_false_iff_not]
      exact hq
    rw [this, Bool.false_and]
  have hcamlk : lookupA camera_id (phase1State cfg now s).pending_by_camera = some c := by
    rw [phase1State_cam cfg now s hsiteN]
    rw [camFold_lookup_other cfg now s.site_cooldown ?_]
    · exact hkc
    · intro e he hf p hp hpk
      by_cases hee : e.1 = c.site_id
      · have hlk' : lookupA c.site_id s.pending_by_site = some e.2 := by
          rw [← hee]
          exact mem_lookupA hsiteN he
        rw [hee] at hf
        rw [hnofire e.2 hlk'] at hf
        exact Bool.noConfusion hf
      · have := wf_unique hwf hkc e he p (List.mem_of_mem_filter hp) hpk
        exact hee this.1
  constructor
  · constructor
    · intro hmem
      rw [process_out cfg now s hsiteN] at hmem
      rcases List.mem_append.mp hmem with hh | hh
      · obtain ⟨e, he, heq⟩ := List.mem_filterMap.mp hh
        by_cases hf : fireE cfg now s.site_cooldown e.1 e.2 = true
        · rw [if_pos hf] at heq
          injection heq with heq'
          have : (aggAction cfg now e.1 e.2).kind = (singleAction c).kind := by rw [heq']
          simp [aggAction, singleAction] at this
        · rw [if_neg hf] at heq
          exact Option.noConfusion heq
      · obtain ⟨e, _, heq⟩ := List.mem_filterMap.mp hh
        by_cases hcnd : cfg.window ≤ now - e.2.ready_at
        · rw [if_pos hcnd] at heq
          injection heq with heq'
          have : e.2 = c := by
            have h2 : (singleAction e.2).candidates = (singleAction c).candidates := by
              rw [heq']
            simpa [singleAction] using h2
          rw [← this]
          exact hcnd
        · rw [if_neg hcnd] at heq
          exact Option.noConfusion heq
    · intro hage
      rw [process_out cfg now s hsiteN]
      apply List.mem_append_right
      apply List.mem_filterMap.mpr
      exact ⟨(camera_id, c), lookupA_mem hcamlk, by rw [if_pos hage]⟩
  · intro hage a ha x hx
    rw [process_out cfg now s hsiteN] at ha
    rcases List.mem_append.mp ha with hh | hh
    · obtain ⟨e, he, heq⟩ := List.mem_filterMap.mp hh
      by_cases hf : fireE cfg now s.site_cooldown e.1 e.2 = true
      · rw [if_pos hf] at heq
        injection heq with heq'
        rw [← heq'] at hx
        have hx' : x ∈ (activeFilter cfg now e.2).map (·.2) := hx
        obtain ⟨p, hp, hpx⟩ := List.mem_map.mp hx'
        intro hxid
        have hpk : p.1 = camera_id := by
          obtain ⟨_, _, hall⟩ := hpools e he
          obtain ⟨hkmatch, _, _⟩ := hall p (List.mem_of_mem_filter hp)
          rw [← hkmatch, hpx, hxid]
        have huniq := wf_unique hwf hkc e he p (List.mem_of_mem_filter hp) hpk
        have hlk' : lookupA c.site_id s.pending_by_site = some e.2 := by
          rw [← huniq.1]
          exact mem_lookupA hsiteN he
        rw [huniq.1] at hf
        rw [hnofire e.2 hlk'] at hf
        exact Bool.noConfusion hf
      · rw [if_neg hf] at heq
        exact Option.noConfusion heq
    · obtain ⟨e, he, heq⟩ := List.mem_filterMap.mp hh
      by_cases hcnd : cfg.window ≤ now - e.2.ready_at
      · rw [if_pos hcnd] at heq
        injection heq with heq'
        rw [← heq'] at hx
        have hx' : x = e.2 := by simpa [singleAction] using hx
        intro hxid
        have he' : e ∈ s.pending_by_camera := by
          have hsub : (phase1State cfg now s).pending_by_camera.Sublist s.pending_by_camera := by
            rw [phase1State_cam cfg now s hsiteN]
            exact camFold_sublist cfg now s.site_cooldown _ _
          exact hsub.mem he
        obtain ⟨_, _, _, hcam⟩ := wf_parts hwf
        have hkmatch : e.2.camera_id = e.1 := (hcam e he').1
        have hek : e.1 = camera_id := by rw [← hkmatch, ← hx', hxid]
        have : lookupA camera_id s.pending_by_camera = some e.2 := by
          rw [← hek]
          exact mem_lookupA hcamN he'
        rw [hkc] at this
        injection this with hv
        rw [← hv] at hcnd
        omega
      · rw [if_neg hcnd] at heq
        exact Option.noConfusion heq

open SiteAlertAggregator in
theorem claim_C5_witness :
    (singleAction candW9 ∈ (process cfgW5 11 sW5).1 ↔ cfgW5.window ≤ 11 - candW9.ready_at) ∧
    (11 - candW9.ready_at < cfgW5.window →
      ∀ a ∈ (process cfgW5 11 sW5).1, ∀ x ∈ a.candidates, x.camera_id ≠ "CAM-09") :=
  claim_C5 cfgW5 sW5 11 "CAM-09" candW9 (by decide) (by decide) (by decide)

open SiteAlertAggregator in
/-- C9: with the aggregator constructed with `min_count = 1`, a site
holding exactly one candidate whose age is within the window, with no
active cooldown, is dispatched by a flush as an `aggregate` action
containing just that candidate, not as a `single` action. -/
theorem claim_C9 (window_sec suppress_sec : Int) (washdown : Option (List (Nat × Nat)))
    (loc : Int → Nat) (cfg : Config)
    (hcfg : cfg = mkConfig window_sec 1 suppress_sec washdown loc)
    (s : State) (now : Int) (site_id camera_id : String) (c : AlertCandidate)
    (hwf : wf s = true)
    (hpool : lookupA site_id s.pending_by_site = some [(camera_id, c)])
    (hage : now - c.ready_at ≤ cfg.window)
    (hcd : cooldownOk now s.site_cooldown site_id = true) :
    aggAction cfg now site_id [(camera_id, c)] ∈ (process cfg now s).1 ∧
    (aggAction cfg now site_id [(camera_id, c)]).candidates = [c] ∧
    ∀ a ∈ (process cfg now s).1, a.kind = "single" → ∀ x ∈ a.candidates,
      x.camera_id ≠ camera_id := by
  obtain ⟨hcamN, hsiteN, _, hcams⟩ := wf_parts hwf
  have hmemsite : (site_id, [(camera_id, c)]) ∈ s.pending_by_site := lookupA_mem hpool
  have hactive : activeFilter cfg now [(camera_id, c)] = [(camera_id, c)] := by
    rw [activeFilter]
    have hd : decide (now - c.ready_at ≤ cfg.window) = true := decide_eq_true hage
    simp [hd]
    omega
  have hmc : cfg.min_count = 1 := by
    rw [hcfg]
    rfl
  have hf : fireE cfg now s.site_cooldown site_id [(camera_id, c)] = true := by
    rw [fireE, hactive, hcd, hmc]
    simp
  refine ⟨?_, by simp [aggAction, hactive], ?_⟩
  · rw [process_out cfg now s hsiteN]
    apply List.mem_append_left
    apply List.mem_filterMap.mpr
    exact ⟨(site_id, [(camera_id, c)]), hmemsite, by rw [if_pos hf]⟩
  · intro a ha hkind x hx
    rw [process_out cfg now s hsiteN] at ha
    rcases List.mem_append.mp ha with hh | hh
    · obtain ⟨e, he, heq⟩ := List.mem_filterMap.mp hh
      by_cases hfe : fireE cfg now s.site_cooldown e.1 e.2 = true
      · rw [if_pos hfe] at heq
        injection heq with heq'
        rw [← heq'] at hkind
        simp [aggAction] at hkind
      · rw [if_neg hfe] at heq
        exact Option.noConfusion heq
    · obtain ⟨e, he, heq⟩ := List.mem_filterMap.mp hh
      by_cases hcnd : cfg.window ≤ now - e.2.ready_at
      · rw [if_pos hcnd] at heq
        injection heq with heq'
        rw [← heq'] at hx
        have hx' : x = e.2 := by simpa [singleAction] using hx
        intro hxid
        have hnone : lookupA camera_id (phase1State cfg now s).pending_by_camera = none := by
          rw [phase1State_cam cfg now s hsiteN]
          apply camFold_lookup_none cfg now s.site_cooldown hcamN
          refine ⟨(site_id, [(camera_id, c)]), hmemsite, hf, (camera_id, c), ?_, rfl⟩
          rw [hactive]
          exact List.mem_singleton.mpr rfl
        have hsub : (phase1State cfg now s).pending_by_camera.Sublist s.pending_by_camera := by
          rw [phase1State_cam cfg now s hsiteN]
          exact camFold_sublist cfg now s.site_cooldown _ _
        have hkmatch : e.2.camera_id = e.1 := (hcams e (hsub.mem he)).1
        have hek : e.1 = camera_id := by rw [← hkmatch, ← hx', hxid]
        have hNodup : ((phase1State cfg now s).pending_by_camera.map Prod.fst).Nodup :=
          (hsub.map Prod.fst).nodup hcamN
        have : lookupA camera_id (phase1State cfg now s).pending_by_camera = some e.2 := by
          rw [← hek]
          exact mem_lookupA hNodup he
        rw [hnone] at this
        exact Option.noConfusion this
      · rw [if_neg hcnd] at heq
        exact Option.noConfusion heq

open SiteAlertAggregator in
theorem claim_C9_witness :
    aggAction cfgW9 5 "SiteA" [("CAM-09", candW9)] ∈ (process cfgW9 5 sW9).1 ∧
    (aggAction cfgW9 5 "SiteA" [("CAM-09", candW9)]).candidates = [candW9] ∧
    ∀ a ∈ (process cfgW9 5 sW9).1, a.kind = "single" → ∀ x ∈ a.candidates,
      x.camera_id ≠ "CAM-09" :=
  claim_C9 30 60 none tzZero cfgW9 rfl sW9 5 "SiteA" "CAM-09" candW9
    (by decide) (by decide) (by decide) (by decide)

open SiteAlertAggregator in
/-- C6: an aggregate `AlertAction`'s `washdown_hint` is true iff some
candidate's `ready_at`, converted to local time of day, lies within a
configured washdown range — bounds inclusive on both ends for non-wrapping
ranges (`start <= t <= end`), and for wrapping ranges (`start > end`)
matching when `t >= start` or `t <= end`; every `single` action has
`washdown_hint` false. -/
theorem claim_C6 (cfg : Config) (now : Int) (s : State) :
    ∀ a ∈ (process cfg now s).1,
      (a.kind = "aggregate" → (a.washdown_hint = true ↔ inWashdownSpec cfg a.candidates)) ∧
      (a.kind = "single" → a.washdown_hint = false) := by
  intro a ha
  rcases process_acts_shape cfg now s a ha with ⟨site_id, pool, hagg⟩ | ⟨c, hsingle⟩
  · subst hagg
    constructor
    · intro _
      exact within_washdown_iff cfg ((activeFilter cfg now pool).map (·.2))
    · intro hk
      simp [aggAction] at hk
  · subst hsingle
    constructor
    · intro hk
      simp [singleAction] at hk
    · intro _
      rfl

open SiteAlertAggregator in
theorem claim_C6_witness :
    ((aggAction cfgW6 0 "SiteA" [("CAM-01", candW1), ("CAM-02", candW2)]).kind = "aggregate" →
      ((aggAction cfgW6 0 "SiteA" [("CAM-01", candW1), ("CAM-02", candW2)]).washdown_hint = true ↔
        inWashdownSpec cfgW6
          (aggAction cfgW6 0 "SiteA" [("CAM-01", candW1), ("CAM-02", candW2)]).candidates)) ∧
    ((aggAction cfgW6 0 "SiteA" [("CAM-01", candW1), ("CAM-02", candW2)]).kind = "single" →
      (aggAction cfgW6 0 "SiteA" [("CAM-01", candW1), ("CAM-02", candW2)]).washdown_hint
        = false) :=
  claim_C6 cfgW6 0 sW _ (by decide)

namespace SiteAlertAggregator

theorem cancel_lookup_none {s : State} {camera_id : String}
    (h : lookupA camera_id s.pending_by_camera = none) : cancel camera_id s = s := by
  rw [cancel, h]

theorem cancel_some_none {s : State} {camera_id : String} {c : AlertCandidate}
    (hc : lookupA camera_id s.pending_by_camera = some c)
    (hs : lookupA c.site_id s.pending_by_site = none) :
    cancel camera_id s = { s with pending_by_camera := eraseA camera_id s.pending_by_camera } := by
  rw [cancel, hc]
  simp only []
  rw [hs]

theorem cancel_some_some {s : State} {camera_id : String} {c : AlertCandidate}
    {pool : List (String × AlertCandidate)}
    (hc : lookupA camera_id s.pending_by_camera = some c)
    (hs : lookupA c.site_id s.pending_by_site = some pool) :
    cancel camera_id s =
      { s with
        pending_by_camera := eraseA camera_id s.pending_by_camera
        pending_by_site :=
          if (eraseA camera_id pool).isEmpty then eraseA c.site_id s.pending_by_site
          else insertA c.site_id (eraseA camera_id pool) s.pending_by_site } := by
  rw [cancel, hc]
  simp only []
  rw [hs]

/-- Under `wf`, cancelling removes a camera's key from the global pool and
from every site pool, and the cancelled state's pools keep their keys
unique and key-matched. -/
theorem cancel_removed {s : State} (camera_id : String) (hwf : wf s = true) :
    lookupA camera_id (cancel camera_id s).pending_by_camera = none ∧
    (∀ e ∈ (cancel camera_id s).pending_by_site, ∀ q ∈ e.2, q.1 ≠ camera_id) := by
  obtain ⟨hcamN, hsiteN, hpools, hcams⟩ := wf_parts hwf
  rcases hc : lookupA camera_id s.pending_by_camera with _ | c
  · rw [cancel_lookup_none hc]
    refine ⟨hc, ?_⟩
    intro e he q hq hqcid
    obtain ⟨_, _, hall⟩ := hpools e he
    obtain ⟨_, _, hlk⟩ := hall q hq
    rw [hqcid, hc] at hlk
    exact Option.noConfusion hlk
  · have hbind := (hcams (camera_id, c) (lookupA_mem hc)).2
    rcases hs : lookupA c.site_id s.pending_by_site with _ | pool
    · rw [cancel_some_none hc hs]
      refine ⟨lookupA_eraseA_self _ _ hcamN, ?_⟩
      intro e he q hq hqcid
      have := wf_unique hwf hc e he q hq hqcid
      have hm : lookupA c.site_id s.pending_by_site = some e.2 := by
        rw [← this.1]
        exact mem_lookupA hsiteN he
      rw [hs] at hm
      exact Option.noConfusion hm
    · rw [cancel_some_some hc hs]
      refine ⟨lookupA_eraseA_self _ _ hcamN, ?_⟩
      have hpoolN : (pool.map Prod.fst).Nodup :=
        (hpools (c.site_id, pool) (lookupA_mem hs)).2.1
      simp only []
      split
      · intro e he q hq hqcid
        by_cases hes : e.1 = c.site_id
        · have hnone : lookupA c.site_id (eraseA c.site_id s.pending_by_site) = none :=
            lookupA_eraseA_self _ _ hsiteN
          rw [lookupA_eq_none_iff] at hnone
          exact hnone e he hes
        · have := wf_unique hwf hc e (mem_eraseA he) q hq hqcid
          exact hes this.1
      · intro e he q hq hqcid
        by_cases hes : e.1 = c.site_id
        · have hlq : lookupA e.1
              (insertA c.site_id (eraseA camera_id pool) s.pending_by_site) = some e.2 :=
            mem_lookupA (nodupKeys_insertA _ _ hsiteN) he
          rw [hes, lookupA_insertA_self] at hlq
          injection hlq with hlq'
          have hnone : lookupA camera_id (eraseA camera_id pool) = none :=
            lookupA_eraseA_self _ _ hpoolN
          rw [lookupA_eq_none_iff] at hnone
          exact hnone q (hlq' ▸ hq) hqcid
        · rcases mem_insertA he with hh | hh
          · have := wf_unique hwf hc e hh q hq hqcid
            exact hes this.1
          · apply hes
            rw [hh]

theorem cancel_cam_sub {s : State} (camera_id : String) :
    ∀ p ∈ (cancel camera_id s).pending_by_camera, p ∈ s.pending_by_camera := by
  rcases hc : lookupA camera_id s.pending_by_camera with _ | c
  · rw [cancel_lookup_none hc]
    intro p hp
    exact hp
  · rcases hs : lookupA c.site_id s.pending_by_site with _ | pool
    · rw [cancel_some_none hc hs]
      intro p hp
      exact mem_eraseA hp
    · rw [cancel_some_some hc hs]
      intro p hp
      exact mem_eraseA hp

theorem cancel_siteN {s : State} (camera_id : String)
    (hsiteN : (s.pending_by_site.map Prod.fst).Nodup) :
    ((cancel camera_id s).pending_by_site.map Prod.fst).Nodup := by
  rcases hc : lookupA camera_id s.pending_by_camera with _ | c
  · rw [cancel_lookup_none hc]; exact hsiteN
  · rcases hs : lookupA c.site_id s.pending_by_site with _ | pool
    · rw [cancel_some_none hc hs]; exact hsiteN
    · rw [cancel_some_some hc hs]
      simp only []
      split
      · exact nodupKeys_eraseA _ hsiteN
      · exact nodupKeys_insertA _ _ hsiteN

theorem cancel_site_sub {s : State} (camera_id : String) :
    ∀ e ∈ (cancel camera_id s).pending_by_site, ∀ q ∈ e.2,
      ∃ e0 ∈ s.pending_by_site, q ∈ e0.2 := by
  rcases hc : lookupA camera_id s.pending_by_camera with _ | c
  · rw [cancel_lookup_none hc]
    intro e he q hq
    exact ⟨e, he, hq⟩
  · rcases hs : lookupA c.site_id s.pending_by_site with _ | pool
    · rw [cancel_some_none hc hs]
      intro e he q hq
      exact ⟨e, he, hq⟩
    · rw [cancel_some_some hc hs]
      simp only []
      split
      · intro e he q hq
        exact ⟨e, mem_eraseA he, hq⟩
      · intro e he q hq
        rcases mem_insertA he with hh | hh
        · exact ⟨e, hh, hq⟩
        · refine ⟨(c.site_id, pool), lookupA_mem hs, ?_⟩
          have hq2 : q ∈ eraseA camera_id pool := by
            rw [hh] at hq
            exact hq
          exact mem_eraseA hq2

/-- If neither pool of `s` holds an entry for `camera_id` (as key or
candidate id), no action of a flush references that camera. -/
theorem process_candidates_nok (cfg : Config) (now : Int) (s : State) (camera_id : String)
    (hsiteN : (s.pending_by_site.map Prod.fst).Nodup)
    (hcam : ∀ p ∈ s.pending_by_camera, p.1 ≠ camera_id ∧ p.2.camera_id = p.1)
    (hsite : ∀ e ∈ s.pending_by_site, ∀ q ∈ e.2, q.1 ≠ camera_id ∧ q.2.camera_id = q.1) :
    ∀ a ∈ (process cfg now s).1, ∀ x ∈ a.candidates, x.camera_id ≠ camera_id := by
  intro a ha x hx
  rw [process_out cfg now s hsiteN] at ha
  rcases List.mem_append.mp ha with hh | hh
  · obtain ⟨e, he, heq⟩ := List.mem_filterMap.mp hh
    by_cases hf : fireE cfg now s.site_cooldown e.1 e.2 = true
    · rw [if_pos hf] at heq
      injection heq with heq'
      rw [← heq'] at hx
      obtain ⟨p, hp, hpx⟩ := List.mem_map.mp hx
      obtain ⟨hne, hmatch⟩ := hsite e he p (List.mem_of_mem_filter hp)
      rw [← hpx, hmatch]
      exact hne
    · rw [if_neg hf] at heq
      exact Option.noConfusion heq
  · obtain ⟨e, he, heq⟩ := List.mem_filterMap.mp hh
    by_cases hcnd : cfg.window ≤ now - e.2.ready_at
    · rw [if_pos hcnd] at heq
      injection heq with heq'
      rw [← heq'] at hx
      have hx' : x = e.2 := by simpa [singleAction] using hx
      have hsub : (phase1State cfg now s).pending_by_camera.Sublist s.pending_by_camera := by
        rw [phase1State_cam cfg now s hsiteN]
        exact camFold_sublist cfg now s.site_cooldown _ _
      obtain ⟨hne, hmatch⟩ := hcam e (hsub.mem he)
      rw [hx', hmatch]
      exact hne
    · rw [if_neg hcnd] at heq
      exact Option.noConfusion heq

end SiteAlertAggregator

namespace SiteAlertAggregator

theorem State.ext3 {s1 s2 : State}
    (h1 : s1.pending_by_camera = s2.pending_by_camera)
    (h2 : s1.pending_by_site = s2.pending_by_site)
    (h3 : s1.site_cooldown = s2.site_cooldown) : s1 = s2 := by
  cases s1
  cases s2
  simp_all

/-- Cancelling a candidate that was just enqueued into a `wf` state
restores the state exactly. -/
theorem cancel_enqueue (s : State) (c : AlertCandidate) (hwf : wf s = true)
    (h : lookupA c.camera_id s.pending_by_camera = none) :
    cancel c.camera_id (enqueue c s) = s := by
  obtain ⟨hcamN, hsiteN, hpools, _⟩ := wf_parts hwf
  have hc : lookupA c.camera_id (enqueue c s).pending_by_camera = some c := by
    rw [enqueue]
    exact lookupA_insertA_self _ _ _
  have hcam : eraseA c.camera_id (enqueue c s).pending_by_camera = s.pending_by_camera := by
    rw [enqueue]
    simp only []
    rw [insertA_of_lookupA_none c h, eraseA_append c h]
  rcases hsl : lookupA c.site_id s.pending_by_site with _ | pool0
  · have hs : lookupA c.site_id (enqueue c s).pending_by_site =
        some (insertA c.camera_id c []) := by
      rw [enqueue]
      simp only [hsl, Option.getD_none]
      exact lookupA_insertA_self _ _ _
    rw [cancel_some_some hc hs]
    apply State.ext3
    · exact hcam
    · simp only []
      have hpool : eraseA c.camera_id (insertA c.camera_id c []) = [] := by
        simp [insertA, eraseA]
      rw [hpool]
      rw [enqueue]
      simp only [hsl, Option.getD_none]
      rw [insertA_of_lookupA_none _ hsl, eraseA_append _ hsl]
      simp
    · rfl
  · have hnp : lookupA c.camera_id pool0 = none := by
      rcases hq : lookupA c.camera_id pool0 with _ | q
      · rfl
      · obtain ⟨hlkq, _, _⟩ :=
          wf_pool_lookup_cam hwf (lookupA_mem hsl) (lookupA_mem hq)
        rw [h] at hlkq
        exact Option.noConfusion hlkq
    have hs : lookupA c.site_id (enqueue c s).pending_by_site =
        some (insertA c.camera_id c pool0) := by
      rw [enqueue]
      simp only [hsl, Option.getD_some]
      exact lookupA_insertA_self _ _ _
    rw [cancel_some_some hc hs]
    apply State.ext3
    · exact hcam
    · simp only []
      rw [insertA_of_lookupA_none c hnp, eraseA_append c hnp]
      have hne : ¬ pool0.isEmpty = true := (hpools (c.site_id, pool0) (lookupA_mem hsl)).1
      rw [if_neg hne]
      rw [enqueue]
      simp only [hsl, Option.getD_some]
      rw [insertA_of_lookupA_none c hnp]
      rw [insertA_insertA]
      exact insertA_self hsl
    · rfl

end SiteAlertAggregator

open SiteAlertAggregator in
/-- C7: for a camera id with a pending candidate, `cancel` removes the
candidate from the global pool and from its site's pool (pruning an
emptied site pool), leaving the pools as if the candidate had never been
enqueued, and no subsequent flush, at any time, emits an action
referencing it; `cancel` for a camera id with no pending candidate changes
nothing. -/
theorem claim_C7 (s : State) (camera_id : String) (c : AlertCandidate) (hwf : wf s = true) :
    (lookupA camera_id s.pending_by_camera = none → cancel camera_id s = s) ∧
    (lookupA c.camera_id s.pending_by_camera = none →
      cancel c.camera_id (enqueue c s) = s) ∧
    (lookupA camera_id (cancel camera_id s).pending_by_camera = none ∧
      ∀ e ∈ (cancel camera_id s).pending_by_site, lookupA camera_id e.2 = none) ∧
    (∀ cfg : Config, ∀ now : Int, ∀ a ∈ (process cfg now (cancel camera_id s)).1,
      ∀ x ∈ a.candidates, x.camera_id ≠ camera_id) := by
  obtain ⟨hcamN, hsiteN, hpools, hcams⟩ := wf_parts hwf
  obtain ⟨hnone, hsitenone⟩ := cancel_removed camera_id hwf
  refine ⟨fun h => cancel_lookup_none h, fun h => cancel_enqueue s c hwf h, ⟨hnone, ?_⟩, ?_⟩
  · intro e he
    rw [lookupA_eq_none_iff]
    exact hsitenone e he
  · intro cfg now
    apply process_candidates_nok cfg now (cancel camera_id s) camera_id
      (cancel_siteN camera_id hsiteN)
    · intro p hp
      have hp0 : p ∈ s.pending_by_camera := cancel_cam_sub camera_id p hp
      refine ⟨?_, (hcams p hp0).1⟩
      have hn := hnone
      rw [lookupA_eq_none_iff] at hn
      exact hn p hp
    · intro e he q hq
      obtain ⟨e0, he0, hq0⟩ := cancel_site_sub camera_id e he q hq
      obtain ⟨_, _, hall⟩ := hpools e0 he0
      exact ⟨hsitenone e he q hq, (hall q hq0).1⟩

open SiteAlertAggregator in
theorem claim_C7_witness :
    (lookupA "CAM-03" sW.pending_by_camera = none → cancel "CAM-03" sW = sW) ∧
    (lookupA candW9.camera_id sW.pending_by_camera = none →
      cancel candW9.camera_id (enqueue candW9 sW) = sW) ∧
    (lookupA "CAM-03" (cancel "CAM-03" sW).pending_by_camera = none ∧
      ∀ e ∈ (cancel "CAM-03" sW).pending_by_site, lookupA "CAM-03" e.2 = none) ∧
    (∀ cfg : Config, ∀ now : Int, ∀ a ∈ (process cfg now (cancel "CAM-03" sW)).1,
      ∀ x ∈ a.candidates, x.camera_id ≠ "CAM-03") :=
  claim_C7 sW "CAM-03" candW9 (by decide)

theorem foldl_windows (l : List (List Char)) :
    ∀ acc : List (Nat × Nat),
      l.foldl
        (fun windows chunk =>
          let chunk := strip chunk
          if chunk = [] then windows
          else
            match parseChunk chunk with
            | some w => windows ++ [w]
            | none => windows)
        acc =
      acc ++ l.filterMap fun chunk =>
        if strip chunk = [] then none else parseChunk (strip chunk) := by
  induction l with
  | nil => intro acc; simp
  | cons chunk rest ih =>
    intro acc
    rw [List.foldl_cons, List.filterMap_cons]
    by_cases hb : strip chunk = []
    · simp only [hb, if_pos rfl]
      exact ih acc
    · simp only [if_neg hb]
      rcases hp : parseChunk (strip chunk) with _ | w
      · simp only []
        exact ih acc
      · simp only []
        rw [ih (acc ++ [w])]
        simp

/-- C8: `parse_washdown_schedule` never raises — every comma-separated
chunk that does not parse as `HH:MM-HH:MM` is dropped (with only a
warning printed), and the function returns exactly the windows of the
well-formed chunks, in order; an absent spec yields the empty schedule. -/
theorem claim_C8 :
    (∀ sp : String, parse_washdown_schedule (some sp) =
      (splitOnChar ',' sp.data).filterMap fun chunk =>
        if strip chunk = [] then none else parseChunk (strip chunk)) ∧
    parse_washdown_schedule none = [] ∧
    parse_washdown_schedule (some "06:00-06:30,totally-bogus,18:00-18:30") =
      [(360, 390), (1080, 1110)] := by
  have hmain : ∀ sp : String, parse_washdown_schedule (some sp) =
      (splitOnChar ',' sp.data).filterMap fun chunk =>
        if strip chunk = [] then none else parseChunk (strip chunk) := by
    intro sp
    rw [parse_washdown_schedule]
    by_cases hsp : sp.data = []
    · rw [if_pos hsp, hsp]
      decide
    · rw [if_neg hsp]
      exact foldl_windows (splitOnChar ',' sp.data) []
  refine ⟨hmain, rfl, ?_⟩
  rw [hmain]
  decide

namespace AlertEngine

theorem after_alert_cons (cfg : Config) (now : Int) (e : String) (rest : List String)
    (decision : String) (s : State) :
    after_alert cfg now (e :: rest) decision s =
      after_alert cfg now rest decision (afterStep cfg now decision s e) := rfl

theorem afterStep_none {cfg : Config} {now : Int} {decision : String} {acc : State}
    {camera_id : String} (h : lookupA camera_id acc.state = none) :
    afterStep cfg now decision acc camera_id = acc := by
  rw [afterStep, h]

theorem afterStep_clean_none {cfg : Config} {now : Int} {acc : State} {camera_id : String}
    {st : CameraAlertState} (h : lookupA camera_id acc.state = some st)
    (hb : st.blur_start = none) :
    afterStep cfg now "clean" acc camera_id =
      { acc with sim_calls := acc.sim_calls ++ [(camera_id, false)]
                 state := insertA camera_id clearState acc.state } := by
  rw [afterStep, h]
  simp [hb, clearState]

theorem afterStep_clean_some {cfg : Config} {now : Int} {acc : State} {camera_id : String}
    {st : CameraAlertState} {b : Int} (h : lookupA camera_id acc.state = some st)
    (hb : st.blur_start = some b) :
    afterStep cfg now "clean" acc camera_id =
      { acc with sim_calls := acc.sim_calls ++ [(camera_id, false)]
                 episodes := acc.episodes ++ [(camera_id, b, now)]
                 state := insertA camera_id clearState acc.state } := by
  rw [afterStep, h]
  simp [hb, clearState]

theorem afterStep_ignore {cfg : Config} {now : Int} {acc : State} {camera_id : String}
    {st : CameraAlertState} (h : lookupA camera_id acc.state = some st) :
    afterStep cfg now "ignore" acc camera_id =
      { acc with
        state :=
          insertA camera_id
            { st with pending_candidate := false, alert_open := true,
                      last_alert_until := some (now + cfg.suppress) } acc.state } := by
  rw [afterStep, h]
  simp

theorem afterStep_agg (cfg : Config) (now : Int) (decision : String) (acc : State)
    (camera_id : String) : (afterStep cfg now decision acc camera_id).aggregator =
      acc.aggregator := by
  rw [afterStep]
  rcases lookupA camera_id acc.state with _ | st
  · rfl
  · simp only []
    split
    · rcases st.blur_start with _ | b <;> rfl
    · rfl

theorem afterStep_epi_mono (cfg : Config) (now : Int) (decision : String) (acc : State)
    (camera_id : String) (x : String × Int × Int) (hx : x ∈ acc.episodes) :
    x ∈ (afterStep cfg now decision acc camera_id).episodes := by
  rw [afterStep]
  rcases lookupA camera_id acc.state with _ | st
  · exact hx
  · simp only []
    split
    · rcases st.blur_start with _ | b
      · exact hx
      · exact List.mem_append_left _ hx
    · exact hx

theorem afterStep_sim_mono (cfg : Config) (now : Int) (decision : String) (acc : State)
    (camera_id : String) (x : String × Bool) (hx : x ∈ acc.sim_calls) :
    x ∈ (afterStep cfg now decision acc camera_id).sim_calls := by
  rw [afterStep]
  rcases lookupA camera_id acc.state with _ | st
  · exact hx
  · simp only []
    split
    · rcases st.blur_start with _ | b
      · exact List.mem_append_left _ hx
      · exact List.mem_append_left _ hx
    · exact hx

theorem afterStep_state_other (cfg : Config) (now : Int) (decision : String) (acc : State)
    {camera_id k : String} (hne : camera_id ≠ k) :
    lookupA k (afterStep cfg now decision acc camera_id).state = lookupA k acc.state := by
  rw [afterStep]
  rcases lookupA camera_id acc.state with _ | st
  · rfl
  · simp only []
    split
    · rcases st.blur_start with _ | b
      · simp only []
        exact lookupA_insertA_ne _ _ _ _ hne
      · simp only []
        exact lookupA_insertA_ne _ _ _ _ hne
    · simp only []
      exact lookupA_insertA_ne _ _ _ _ hne

theorem after_alert_agg (cfg : Config) (now : Int) (decision : String) :
    ∀ (ids : List String) (s : State),
      (after_alert cfg now ids decision s).aggregator = s.aggregator := by
  intro ids
  induction ids with
  | nil => intro s; rfl
  | cons e rest ih =>
    intro s
    rw [after_alert_cons, ih, afterStep_agg]

theorem after_alert_epi_mono (cfg : Config) (now : Int) (decision : String) :
    ∀ (ids : List String) (s : State) (x : String × Int × Int),
      x ∈ s.episodes → x ∈ (after_alert cfg now ids decision s).episodes := by
  intro ids
  induction ids with
  | nil => intro s x hx; exact hx
  | cons e rest ih =>
    intro s x hx
    rw [after_alert_cons]
    exact ih _ x (afterStep_epi_mono cfg now decision s e x hx)

theorem after_alert_sim_mono (cfg : Config) (now : Int) (decision : String) :
    ∀ (ids : List String) (s : State) (x : String × Bool),
      x ∈ s.sim_calls → x ∈ (after_alert cfg now ids decision s).sim_calls := by
  intro ids
  induction ids with
  | nil => intro s x hx; exact hx
  | cons e rest ih =>
    intro s x hx
    rw [after_alert_cons]
    exact ih _ x (afterStep_sim_mono cfg now decision s e x hx)

theorem after_alert_clean_clear (cfg : Config) (now : Int) :
    ∀ (ids : List String) (s : State) (camera_id : String),
      lookupA camera_id s.state = some clearState →
      lookupA camera_id (after_alert cfg now ids "clean" s).state = some clearState := by
  intro ids
  induction ids with
  | nil => intro s camera_id h; exact h
  | cons e rest ih =>
    intro s camera_id h
    rw [after_alert_cons]
    apply ih
    by_cases he : e = camera_id
    · subst he
      rcases hb : clearState.blur_start with _ | b
      · rw [afterStep_clean_none h hb]
        simp only []
        rw [lookupA_insertA_self]
      · exact absurd hb (by rw [clearState]; simp)
    · rw [afterStep_state_other cfg now "clean" s he]
      exact h

end AlertEngine

namespace AlertEngine

theorem after_alert_clean_spec (cfg : Config) (now : Int) :
    ∀ (ids : List String) (s : State) (camera_id : String) (st : CameraAlertState) (b : Int),
      lookupA camera_id s.state = some st → camera_id ∈ ids → st.blur_start = some b →
      (camera_id, b, now) ∈ (after_alert cfg now ids "clean" s).episodes ∧
      (camera_id, false) ∈ (after_alert cfg now ids "clean" s).sim_calls ∧
      lookupA camera_id (after_alert cfg now ids "clean" s).state = some clearState := by
  intro ids
  induction ids with
  | nil => intro s camera_id st b _ hmem _; simp at hmem
  | cons e rest ih =>
    intro s camera_id st b hlk hmem hb
    rw [after_alert_cons]
    by_cases he : e = camera_id
    · subst he
      rw [afterStep_clean_some hlk hb]
      refine ⟨?_, ?_, ?_⟩
      · apply after_alert_epi_mono
        simp
      · apply after_alert_sim_mono
        simp
      · apply after_alert_clean_clear
        simp only []
        rw [lookupA_insertA_self]
    · have hmem' : camera_id ∈ rest := by
        rcases List.mem_cons.mp hmem with hh | hh
        · exact absurd hh.symm he
        · exact hh
      apply ih
      · rw [afterStep_state_other cfg now "clean" s he]
        exact hlk
      · exact hmem'
      · exact hb

theorem after_alert_ignore_fix (cfg : Config) (now : Int) :
    ∀ (ids : List String) (s : State) (camera_id : String) (st : CameraAlertState),
      st.pending_candidate = false → st.alert_open = true →
      st.last_alert_until = some (now + cfg.suppress) →
      lookupA camera_id s.state = some st →
      lookupA camera_id (after_alert cfg now ids "ignore" s).state = some st := by
  intro ids
  induction ids with
  | nil => intro s camera_id st _ _ _ h; exact h
  | cons e rest ih =>
    intro s camera_id st hpc hao hla h
    rw [after_alert_cons]
    apply ih _ _ _ hpc hao hla
    by_cases he : e = camera_id
    · subst he
      rw [afterStep_ignore h]
      simp only []
      rw [lookupA_insertA_self]
      obtain ⟨ib, bs, la, ao, pc⟩ := st
      simp only [] at hpc hao hla
      rw [hpc, hao, hla]
    · rw [afterStep_state_other cfg now "ignore" s he]
      exact h

theorem after_alert_ignore_spec (cfg : Config) (now : Int) :
    ∀ (ids : List String) (s : State) (camera_id : String) (st : CameraAlertState),
      lookupA camera_id s.state = some st → camera_id ∈ ids →
      lookupA camera_id (after_alert cfg now ids "ignore" s).state =
        some { st with pending_candidate := false, alert_open := true,
                       last_alert_until := some (now + cfg.suppress) } := by
  intro ids
  induction ids with
  | nil => intro s camera_id st _ hmem; simp at hmem
  | cons e rest ih =>
    intro s camera_id st hlk hmem
    rw [after_alert_cons]
    by_cases he : e = camera_id
    · subst he
      apply after_alert_ignore_fix cfg now rest _ _ _ rfl rfl rfl
      rw [afterStep_ignore hlk]
      simp only []
      rw [lookupA_insertA_self]
    · have hmem' : camera_id ∈ rest := by
        rcases List.mem_cons.mp hmem with hh | hh
        · exact absurd hh.symm he
        · exact hh
      apply ih _ _ _ ?_ hmem'
      rw [afterStep_state_other cfg now "ignore" s he]
      exact hlk

theorem process_blurry_blocked (cfg : Config) (t : Int) (camera_id : String) (s : State)
    (st : CameraAlertState) (u : Int)
    (hlk : lookupA camera_id s.state = some st)
    (hib : st.is_blurry = true) (hao : st.alert_open = true)
    (hla : st.last_alert_until = some u) (ht : t < u) :
    process cfg t camera_id true s = { s with state := insertA camera_id st s.state } := by
  rw [process]
  simp only [hlk, Option.getD_some, hib, if_pos rfl, if_true, hao, hla]
  have hdec : decide (t < u) = true := decide_eq_true ht
  rw [hdec]
  simp only [Bool.and_true, Bool.not_true, Bool.false_and]
  rcases hb : st.blur_start with _ | b
  · rfl
  · simp only [Bool.false_and, if_neg]
    rfl

end AlertEngine

open AlertEngine in
/-- C4: applying a dispatched action's response to each of its cameras:
on `clean`, a camera with `blur_start` set gets an episode
`(camera_id, blur_start, now)` appended, the physical blur flag cleared
through camera control, and its state reset to clear (`is_blurry=false`,
`blur_start=None`, `alert_open=false`, `last_alert_until=None`); on
`ignore`, the camera keeps its blur state with `alert_open=true` and
`last_alert_until = now + suppress`, and a blurry observation at any time
strictly before `last_alert_until` neither enqueues a new candidate nor
changes the camera state. -/
theorem claim_C4 (cfg : Config) (now : Int) (ids : List String) (camera_id : String)
    (st : CameraAlertState) (s : AlertEngine.State)
    (hlk : lookupA camera_id s.state = some st) (hmem : camera_id ∈ ids) :
    (∀ b, st.blur_start = some b →
      (camera_id, b, now) ∈ (after_alert cfg now ids "clean" s).episodes ∧
      (camera_id, false) ∈ (after_alert cfg now ids "clean" s).sim_calls ∧
      lookupA camera_id (after_alert cfg now ids "clean" s).state = some clearState) ∧
    (lookupA camera_id (after_alert cfg now ids "ignore" s).state =
        some { st with pending_candidate := false, alert_open := true,
                       last_alert_until := some (now + cfg.suppress) } ∧
      (st.is_blurry = true → ∀ t, t < now + cfg.suppress →
        (process cfg t camera_id true (after_alert cfg now ids "ignore" s)).aggregator =
          (after_alert cfg now ids "ignore" s).aggregator ∧
        lookupA camera_id
            (process cfg t camera_id true (after_alert cfg now ids "ignore" s)).state =
          some { st with pending_candidate := false, alert_open := true,
                         last_alert_until := some (now + cfg.suppress) })) := by
  constructor
  · intro b hb
    exact after_alert_clean_spec cfg now ids s camera_id st b hlk hmem hb
  · have hig := after_alert_ignore_spec cfg now ids s camera_id st hlk hmem
    refine ⟨hig, ?_⟩
    intro hib t ht
    have hblocked := process_blurry_blocked cfg t camera_id
      (after_alert cfg now ids "ignore" s)
      { st with pending_candidate := false, alert_open := true,
                last_alert_until := some (now + cfg.suppress) }
      (now + cfg.suppress) hig (by simpa using hib) rfl rfl ht
    rw [hblocked]
    constructor
    · rfl
    · simp only []
      rw [lookupA_insertA_self]

open AlertEngine in
theorem claim_C4_witness :
    ((("CAM-01" : String), (0 : Int), (60 : Int)) ∈
        (after_alert cfgE 60 ["CAM-01"] "clean" sE).episodes ∧
      (("CAM-01" : String), false) ∈ (after_alert cfgE 60 ["CAM-01"] "clean" sE).sim_calls ∧
      lookupA "CAM-01" (after_alert cfgE 60 ["CAM-01"] "clean" sE).state = some clearState) ∧
    (lookupA "CAM-01" (after_alert cfgE 60 ["CAM-01"] "ignore" sE).state =
        some { stE with pending_candidate := false, alert_open := true,
                        last_alert_until := some (60 + cfgE.suppress) } ∧
      ((process cfgE 61 "CAM-01" true (after_alert cfgE 60 ["CAM-01"] "ignore" sE)).aggregator =
          (after_alert cfgE 60 ["CAM-01"] "ignore" sE).aggregator ∧
        lookupA "CAM-01"
            (process cfgE 61 "CAM-01" true
              (after_alert cfgE 60 ["CAM-01"] "ignore" sE)).state =
          some { stE with pending_candidate := false, alert_open := true,
                          last_alert_until := some (60 + cfgE.suppress) })) := by
  have h := claim_C4 cfgE 60 ["CAM-01"] "CAM-01" stE sE (by decide) (by decide)
  exact ⟨h.1 0 rfl, h.2.1, h.2.2 rfl 61 (by decide)⟩

theorem forall_insertA {α : Type} {P : String × α → Prop} {l : List (String × α)}
    (hl : ∀ p ∈ l, P p) {k : String} {v : α} (hv : P (k, v)) :
    ∀ p ∈ insertA k v l, P p :=
  fun p hp => (SiteAlertAggregator.mem_insertA hp).elim (hl p) fun he => he ▸ hv

namespace AlertEngine

theorem invFlags_iff (s : State) :
    invFlags s = true ↔
      ∀ e ∈ s.state, ¬(e.2.pending_candidate = true ∧ e.2.alert_open = true) := by
  rw [invFlags, List.all_eq_true]
  constructor
  · intro h e he
    have hne := h e he
    simp only [Bool.not_eq_true', Bool.and_eq_false_iff] at hne
    rintro ⟨hp, ha⟩
    rcases hne with hh | hh
    · rw [hp] at hh; exact Bool.noConfusion hh
    · rw [ha] at hh; exact Bool.noConfusion hh
  · intro h e he
    have hne := h e he
    simp only [Bool.not_eq_true', Bool.and_eq_false_iff]
    by_cases hp : e.2.pending_candidate = true
    · right
      by_cases ha : e.2.alert_open = true
      · exact absurd ⟨hp, ha⟩ hne
      · exact Bool.eq_false_iff.mpr ha
    · left
      exact Bool.eq_false_iff.mpr hp

theorem afterStep_inv (cfg : Config) (now : Int) (decision : String) (acc : State)
    (camera_id : String)
    (h : ∀ e ∈ acc.state, ¬(e.2.pending_candidate = true ∧ e.2.alert_open = true)) :
    ∀ e ∈ (afterStep cfg now decision acc camera_id).state,
      ¬(e.2.pending_candidate = true ∧ e.2.alert_open = true) := by
  rw [afterStep]
  rcases lookupA camera_id acc.state with _ | st
  · exact h
  · simp only []
    split
    · rcases st.blur_start with _ | b
      · simp only []
        apply forall_insertA h
        rintro ⟨hp, _⟩
        exact Bool.noConfusion hp
      · simp only []
        apply forall_insertA h
        rintro ⟨hp, _⟩
        exact Bool.noConfusion hp
    · simp only []
      apply forall_insertA h
      rintro ⟨hp, _⟩
      exact Bool.noConfusion hp

theorem after_alert_inv (cfg : Config) (now : Int) (decision : String) :
    ∀ (ids : List String) (s : State), invFlags s = true →
      invFlags (after_alert cfg now ids decision s) = true := by
  intro ids
  induction ids with
  | nil => intro s h; exact h
  | cons e rest ih =>
    intro s h
    rw [after_alert_cons]
    apply ih
    rw [invFlags_iff] at h ⊢
    exact afterStep_inv cfg now decision s e h

theorem handleActions_inv (cfg : Config) (now : Int) :
    ∀ (acts : List AlertAction) (decisions : List String) (s : State),
      invFlags s = true → invFlags (handleActions cfg now acts decisions s) = true := by
  intro acts
  induction acts with
  | nil => intro decisions s h; exact h
  | cons a rest ih =>
    intro decisions s h
    rw [handleActions]
    split
    · exact ih _ _ (after_alert_inv cfg now _ _ s h)
    · split
      · exact ih _ _ h
      · split
        · exact ih _ _ h
        · exact ih _ _ (after_alert_inv cfg now _ _ s h)

theorem flush_inv (cfg : Config) (decisions : List String) (now : Int) (s : State)
    (h : invFlags s = true) : invFlags (flush cfg decisions now s) = true := by
  rw [flush]
  exact handleActions_inv cfg now _ decisions _ h

theorem process_inv (cfg : Config) (now : Int) (camera_id : String) (b : Bool) (s : State)
    (hg : noRealert s now camera_id b = true) (h : invFlags s = true) :
    invFlags (process cfg now camera_id b s) = true := by
  rw [invFlags_iff] at h ⊢
  intro e he
  rw [process] at he
  rw [noRealert] at hg
  rcases hlk : lookupA camera_id s.state with _ | st
  all_goals rw [hlk] at he hg
  all_goals simp only [Option.getD_none, Option.getD_some] at he
  all_goals rcases b with _ | _
  · -- no prior state, clear observation
    simp at he
    rcases SiteAlertAggregator.mem_insertA he with hm | hm
    · exact h e hm
    · rintro ⟨hp, _⟩
      rw [hm] at hp
      exact Bool.noConfusion hp
  · -- no prior state, blurry observation
    simp at he
    split at he
    all_goals rcases SiteAlertAggregator.mem_insertA he with hm | hm
    all_goals first
      | exact h e hm
      | (rintro ⟨_, ho⟩; rw [hm] at ho; exact Bool.noConfusion ho)
  · -- prior state, clear observation
    by_cases hp0 : st.pending_candidate = true
    all_goals by_cases hib : st.is_blurry = true
    all_goals simp [hp0, hib] at he
    all_goals rcases SiteAlertAggregator.mem_insertA he with hm | hm
    all_goals first
      | exact h e hm
      | (rintro ⟨hp, _⟩; rw [hm] at hp; simp [hp0] at hp)
  · -- prior state, blurry observation
    simp only [Bool.not_true, Bool.false_or] at hg
    by_cases hib : st.is_blurry = true
    · simp only [hib, eq_self_iff_true, if_true] at he
      rcases hbs : st.blur_start with _ | bb
      all_goals simp only [hbs] at he
      · rcases SiteAlertAggregator.mem_insertA he with hm | hm
        · exact h e hm
        · rintro ⟨hp, ho⟩
          rw [hm] at hp ho
          exact h (camera_id, st) (lookupA_mem hlk) ⟨hp, ho⟩
      · split at he
        · rcases SiteAlertAggregator.mem_insertA he with hm | hm
          · exact h e hm
          · rintro ⟨hp, ho⟩
            rw [hm] at ho
            have ho' : st.alert_open = true := ho
            rename_i hc
            rw [Bool.and_eq_true, Bool.and_eq_true] at hc
            obtain ⟨⟨ha1, _⟩, _⟩ := hc
            rw [Bool.not_eq_true', ho', Bool.true_and] at ha1
            rw [ho'] at hg
            simp only [Bool.not_true, Bool.false_or] at hg
            rcases hlu : st.last_alert_until with _ | u
            · rw [hlu] at hg
              exact Bool.noConfusion hg
            · simp only [hlu] at hg ha1
              rw [decide_eq_true_eq] at hg
              rw [decide_eq_false_iff_not] at ha1
              exact ha1 hg
        · rcases SiteAlertAggregator.mem_insertA he with hm | hm
          · exact h e hm
          · rintro ⟨hp, ho⟩
            rw [hm] at hp ho
            exact h (camera_id, st) (lookupA_mem hlk) ⟨hp, ho⟩
    · have hib2 : st.is_blurry = false := Bool.eq_false_iff.mpr hib
      simp only [hib2, Bool.false_eq_true, if_false, eq_self_iff_true, if_true] at he
      split at he
      · rcases SiteAlertAggregator.mem_insertA he with hm | hm
        · exact h e hm
        · rintro ⟨hp, ho⟩
          rw [hm] at ho
          have ho' : st.alert_open = true := ho
          rename_i hc
          rw [Bool.and_eq_true, Bool.and_eq_true] at hc
          obtain ⟨⟨ha1, _⟩, _⟩ := hc
          rw [Bool.not_eq_true', ho', Bool.true_and] at ha1
          rw [ho'] at hg
          simp only [Bool.not_true, Bool.false_or] at hg
          rcases hlu : st.last_alert_until with _ | u
          · rw [hlu] at hg
            exact Bool.noConfusion hg
          · simp only [hlu] at hg ha1
            rw [decide_eq_true_eq] at hg
            rw [decide_eq_false_iff_not] at ha1
            exact ha1 hg
      · rcases SiteAlertAggregator.mem_insertA he with hm | hm
        · exact h e hm
        · rintro ⟨hp, ho⟩
          rw [hm] at hp ho
          have hp2 : st.pending_candidate = true := hp
          have ho2 : st.alert_open = true := ho
          exact h (camera_id, st) (lookupA_mem hlk) ⟨hp2, ho2⟩

end AlertEngine

/-- C1, as frozen, is false: `sBadC1` is reachable by observe/flush alone
and leaves camera `"c"` with `pending_candidate` and `alert_open` both
`true`.  The re-alert path of `AlertEngine.process` re-enqueues a candidate
for a camera whose ignored alert's suppression deadline has passed without
closing the alert. -/
theorem claim_C1_counterexample :
    AlertEngine.ReachAny cfgC1 sBadC1 ∧
    ((lookupA "c" sBadC1.state).map fun st => st.pending_candidate && st.alert_open) =
      some true ∧
    AlertEngine.invFlags sBadC1 = false :=
  ⟨.observe _ 2 "c" true (.flush _ ["ignore"] 1 (.observe _ 0 "c" true .init)),
   by decide, by decide⟩

/-- C1 (amended): for every camera, in every state reachable by observe,
flush and `_after_alert` operations in which no blurry observation ever
reports a camera whose open alert's `last_alert_until` deadline has already
passed (the re-alert scenario), `pending_candidate` and `alert_open` are
never both true at the same time. -/
theorem claim_C1 (cfg : AlertEngine.Config) (s : AlertEngine.State)
    (h : AlertEngine.ReachSafe cfg s) : AlertEngine.invFlags s = true := by
  induction h with
  | init => decide
  | observe s now camera_id b _ hg ih => exact AlertEngine.process_inv cfg now camera_id b s hg ih
  | flush s decisions now _ ih => exact AlertEngine.flush_inv cfg decisions now s ih
  | after s now camera_ids decision _ ih =>
    exact AlertEngine.after_alert_inv cfg now decision camera_ids s ih

/-- The invariant holds on a concrete re-alert-free trace: blurry at 0,
single dispatched and ignored at 1. -/
theorem claim_C1_witness :
    AlertEngine.invFlags
      (AlertEngine.flush cfgC1 ["ignore"] 1
        (AlertEngine.process cfgC1 0 "c" true AlertEngine.State.init)) = true :=
  claim_C1 cfgC1 _ (.flush _ ["ignore"] 1 (.observe _ 0 "c" true .init (by decide)))

/-- C2, as frozen, is false: `__init__` clamps the configured window 0 to
1 second (`max(1, ...)`), so the flush at t0 itself dispatches nothing —
the candidate's age 0 has not reached the effective 1-second window. -/
theorem claim_C2_counterexample :
    cfgC2.aggregator.window = 1 ∧ AlertEngine.flushActions cfgC2 0 sC2 = [] := by
  decide

/-- C2 (amended): with window 0 clamped to the 1-second minimum, the flush
one second after t0 yields exactly one `single` action for the camera with
`blur_since = t0`, and responding `clean` appends episode
`(camera, t0, t0 + 1)`, issues the camera-control clear call, and resets
the camera state to clear. -/
theorem claim_C2 :
    AlertEngine.flushActions cfgC2 1 sC2 =
      [{ kind := "single"
         candidates := [{ camera_id := "CAM-01", line_number := some 1, blur_since := 0,
                          ready_at := 0, site_id := "SiteA" }]
         site_id := "SiteA"
         washdown_hint := false }] ∧
    (AlertEngine.flush cfgC2 ["clean"] 1 sC2).episodes = [("CAM-01", 0, 1)] ∧
    (AlertEngine.flush cfgC2 ["clean"] 1 sC2).sim_calls = [("CAM-01", false)] ∧
    lookupA "CAM-01" (AlertEngine.flush cfgC2 ["clean"] 1 sC2).state =
      some { is_blurry := false, blur_start := none, last_alert_until := none,
             alert_open := false, pending_candidate := false } := by
  decide
